import Mathlib

/-!
Verification development for the sparse-strip renderer core
(vello_common/src/strip.rs and vello_hybrid/src/schedule.rs).

The Rust source is shallowly embedded: machine integers are modelled as
`Nat` (with explicit `% 2 ^ w` at the points where the source performs
wrapping casts or fixed-width arithmetic), `f32` coordinates are modelled
as exact rationals, fallible code (assertions, panicking indexing,
`unwrap`) is modelled with `Option`, and the SIMD coverage arithmetic of
the rasterizer - which influences only the byte *values* written to the
alpha buffer, never control flow or buffer lengths - is abstracted as an
explicit parameter (see `alphaChunk`).
-/

set_option maxRecDepth 8000

namespace Vello

/-! # Gamma corrector (vello_common/src/strip.rs, `GammaCorrector`)

The eight anchor LUTs (`gamma::GAMMA_LUTS`) are generated at build time
and are not part of the sources; they enter the model as an explicit
parameter `luts`.  The anchor luminances are fixed constants. -/

/-- Modelled from the spec: `gamma::ANCHOR_LUMINANCES`, the eight anchor
luminance values (the generated table is not under `src/`; the values are
given by the spec and by the exhaustive test in `strip.rs`). -/
def anchorLuminances : List Nat := [0, 36, 72, 109, 145, 182, 218, 255]

/-- Array indexing into `ANCHOR_LUMINANCES` (always in range in the source;
out-of-range defaults to 0 here, unreachable for `u8` inputs). -/
def anchorLum (i : Nat) : Nat := anchorLuminances.getD i 0

/-- Model of `GammaCorrector::find_anchor_index`: fixed-point computation
`((luminance as u32 * 7 + 6) * 0x8081) >> 23` in 32-bit unsigned
arithmetic (the product never exceeds `2^32`, the `% 2^32` makes the
32-bit width explicit). -/
def findAnchorIndex (luminance : Fin 256) : Nat :=
  ((luminance.val * 7 + 6) * 0x8081 % 2 ^ 32) >>> 23

/-- Model of `GammaCorrector`: a 256-entry `u8` LUT plus the luminance it was
built for. -/
structure GammaCorrector where
  lut : Fin 256 → Fin 256
  currentLuminance : Fin 256

/-- Model of `GammaCorrector::update_lut`.  `luts i j` models `gamma::GAMMA_LUTS[i][j]`.
The `u8` subtraction `luminance - lo_lum` is modelled by truncating `Nat`
subtraction (the source value never underflows since the anchor at
`find_anchor_index` is `≤ luminance`); the final `as u8` cast is the
`% 256`. -/
def GammaCorrector.updateLut (luts : Nat → Fin 256 → Fin 256)
    (c : GammaCorrector) (luminance : Fin 256) : GammaCorrector :=
  let loIdx := findAnchorIndex luminance
  let hiIdx := min (loIdx + 1) 7
  let loLum := anchorLum loIdx
  let hiLum := anchorLum hiIdx
  if loLum = hiLum then
    { c with lut := luts loIdx }
  else
    let t := ((luminance.val - loLum) * 255) / (hiLum - loLum)
    { c with
      lut := fun i =>
        ⟨((luts loIdx i).val * (255 - t) + (luts hiIdx i).val * t + 127) / 255 % 256,
          Nat.mod_lt _ (by norm_num)⟩ }

/-- Model of `GammaCorrector::new`: zero-initialised LUT, then `update_lut`. -/
def GammaCorrector.new (luts : Nat → Fin 256 → Fin 256)
    (luminance : Fin 256) : GammaCorrector :=
  GammaCorrector.updateLut luts { lut := fun _ => 0, currentLuminance := luminance } luminance

/-- Model of `GammaCorrector::update_if_needed`: no-op when the luminance matches,
otherwise rebuild the LUT in place and record the new luminance. -/
def GammaCorrector.updateIfNeeded (luts : Nat → Fin 256 → Fin 256)
    (c : GammaCorrector) (luminance : Fin 256) : GammaCorrector :=
  if c.currentLuminance = luminance then c
  else { c.updateLut luts luminance with currentLuminance := luminance }

/-- Model of `GammaCorrector::correct`: a single LUT lookup. -/
def GammaCorrector.correct (c : GammaCorrector) (alpha : Fin 256) : Fin 256 :=
  c.lut alpha

/-! # Packed strips (vello_common/src/strip.rs, `Strip`)

`Strip::new` and `Strip::set_alpha_idx` `assert!` that the alpha index
does not collide with the fill-gap bit; a failed assertion aborts, which
the model renders as `none`. -/

/-- Model of `Strip::FILL_GAP_MASK = 1 << 31`. -/
def FILL_GAP_MASK : Nat := 2 ^ 31

/-- Model of `Strip`: x/y in user coordinates plus the packed
`alpha_idx`/`fill_gap` word. -/
structure Strip where
  x : Nat
  y : Nat
  packedAlphaIdxFillGap : Nat

/-- Model of `Strip::new`.  The `assert!` that `alpha_idx & FILL_GAP_MASK == 0`
becomes the guard; `u32::from(fill_gap) << 31` is the conditional mask. -/
def Strip.new (x y : Nat) (alphaIdx : Nat) (fillGap : Bool) : Option Strip :=
  if alphaIdx &&& FILL_GAP_MASK = 0 then
    some { x := x, y := y,
           packedAlphaIdxFillGap := alphaIdx ||| (if fillGap then FILL_GAP_MASK else 0) }
  else
    none

/-- Model of `Strip::alpha_idx`: `packed & !FILL_GAP_MASK` (`!` is the `u32`
complement, so the mask is `2^31 - 1`). -/
def Strip.alphaIdx (s : Strip) : Nat :=
  s.packedAlphaIdxFillGap &&& (2 ^ 31 - 1)

/-- Model of `Strip::fill_gap`: `(packed & FILL_GAP_MASK) != 0`. -/
def Strip.fillGap (s : Strip) : Bool :=
  s.packedAlphaIdxFillGap &&& FILL_GAP_MASK != 0

/-- Model of `Strip::set_alpha_idx`, with the same `assert!` as `Strip::new`. -/
def Strip.setAlphaIdx (s : Strip) (alphaIdx : Nat) : Option Strip :=
  if alphaIdx &&& FILL_GAP_MASK = 0 then
    some { s with
           packedAlphaIdxFillGap :=
             alphaIdx ||| (s.packedAlphaIdxFillGap &&& FILL_GAP_MASK) }
  else
    none

/-! # Strip rasterizer (vello_common/src/strip.rs, `render` / `render_impl`)

The tile/line inputs come from `vello_common::tile` and
`vello_common::flatten`, which are not under `src/`; their data layout and
the location predicates are modelled from the spec.  `f32` coordinates are
modelled as exact rationals: the rasterizer's control flow consumes the
coordinates only through the horizontal test `p0_y == p1_y` and the sign
`(p0_y - p1_y).signum()` of the tile-translated endpoints.

The per-pixel fractional-coverage arithmetic (`location_winding`,
`accumulated_winding`, the fill-rule conversion and `f32_to_u8`) writes
only the *values* of the 16 bytes appended per location flush; it never
influences control flow, strip emission or buffer lengths.  The model
therefore abstracts the 16 converted coverage bytes of the `n`-th flush
as `cov n`, and applies the aliasing threshold and gamma correction to
them exactly as the source does.

`Strip::new` calls inside the rasterizer are modelled with the unpacked
record `RasterStrip` (the packing bijection and its `alpha_idx < 2^31`
assertion are modelled separately by `Strip.new` above; the assertion
aborts rather than corrupts, so it does not affect the structural
properties proved here).  `u16` arithmetic on coordinates wraps, hence
the explicit `% 2 ^ 16`. -/

/-- Modelled from the spec: a tile record (`vello_common::tile::Tile` is
not under `src/`): `(tile_x, tile_y)` position, referenced line index and
the signed top-edge winding contribution. -/
structure Tile where
  x : Nat
  y : Nat
  lineIdx : Nat
  winding : Int

/-- Modelled from the spec: `Tile::same_loc` - same `(x, y)` location. -/
def Tile.sameLoc (a b : Tile) : Bool := a.x == b.x && a.y == b.y

/-- Modelled from the spec: `Tile::prev_loc` - `a` is in the column
directly left of `b` in the same row ("the new tile is in the adjacent
column of the same row"). -/
def Tile.prevLoc (a b : Tile) : Bool := a.x + 1 == b.x && a.y == b.y

/-- Modelled from the spec: `Tile::same_row`. -/
def Tile.sameRow (a b : Tile) : Bool := a.y == b.y

/-- The sentinel tile `Tile::new(u16::MAX, u16::MAX, 0, 0)` appended by
`render_impl`. -/
def sentinelTile : Tile := { x := 65535, y := 65535, lineIdx := 0, winding := 0 }

/-- Modelled from the spec: a line segment (`vello_common::flatten::Line`
is not under `src/`), with `f32` endpoint coordinates modelled as exact
rationals. -/
structure Line where
  p0x : ℚ
  p0y : ℚ
  p1x : ℚ
  p1y : ℚ

/-- The default line used for the (unreachable in the source) out-of-range
line lookup; Rust would panic there. -/
def defaultLine : Line := { p0x := 0, p0y := 0, p1x := 0, p1y := 0 }

/-- Model of `vello_common::peniko::Fill`, the fill rule. -/
inductive FillRule where
  | nonZero
  | evenOdd
deriving DecidableEq

/-- The `should_fill` closure of `render_impl`: `NonZero` is `winding != 0`,
`EvenOdd` is `winding % 2 != 0` (Rust `%` on `i32` agrees with `Int.emod`
on being zero). -/
def shouldFill (fillRule : FillRule) (winding : Int) : Bool :=
  match fillRule with
  | .nonZero => winding != 0
  | .evenOdd => winding % 2 != 0

/-- The contribution of one tile's line to `winding_delta`
(`render_impl` lines 352-405): the endpoints are translated by the tile
origin; horizontal lines are skipped (`continue`, contributing nothing),
otherwise `sign * tile.winding` is added where
`sign = (p0_y - p1_y).signum()` is `±1`. -/
def lineDelta (lines : List Line) (tile : Tile) : Int :=
  let line := lines.getD tile.lineIdx defaultLine
  let tileTopY : ℚ := (tile.y : ℚ) * 4
  let p0y := line.p0y - tileTopY
  let p1y := line.p1y - tileTopY
  if p0y = p1y then 0
  else (if p0y - p1y > 0 then 1 else -1) * tile.winding

/-- The rasterizer-side strip record: the unpacked view of `Strip`
(see the section comment). -/
structure RasterStrip where
  x : Nat
  y : Nat
  alphaIdx : Nat
  fillGap : Bool
deriving DecidableEq

/-- Is this strip a row sentinel (`Strip::is_sentinel`, `x == u16::MAX`)? -/
def RasterStrip.isSentinel (s : RasterStrip) : Bool := s.x == 65535

/-- The mutable state of `render_impl`'s loop.  `ghost` is proof-only
instrumentation recording, for every strip pushed to `stripBuf` beyond the
initial contents, `some (prev_tile.x)` at the moment of the push for real
strips and `none` for row sentinels; no other field depends on it. -/
structure RState where
  windingDelta : Int
  prevTile : Tile
  strip : RasterStrip
  stripBuf : List RasterStrip
  alphaBuf : List (Fin 256)
  flushes : Nat
  ghost : List (Option Nat)

/-- Aliasing threshold (`render_impl` lines 282-288): bytes meeting the
threshold snap to 255, the rest to 0. -/
def applyThreshold (threshold : Option (Fin 256)) (v : Fin 256) : Fin 256 :=
  match threshold with
  | none => v
  | some t => if t ≤ v then 255 else 0

/-- Optional gamma correction (`render_impl` lines 290-294). -/
def applyGammaOpt (gamma : Option GammaCorrector) (v : Fin 256) : Fin 256 :=
  match gamma with
  | none => v
  | some c => c.correct v

/-- The 16 bytes appended to the alpha buffer by the `n`-th location
flush: the abstracted coverage conversion `cov n`, then threshold, then
gamma, in source order. -/
def alphaChunk (cov : Nat → Fin 16 → Fin 256) (threshold : Option (Fin 256))
    (gamma : Option GammaCorrector) (n : Nat) : List (Fin 256) :=
  List.ofFn fun j => applyGammaOpt gamma (applyThreshold threshold (cov n j))

/-- The location flush (`render_impl` lines 241-300): append the 16
coverage bytes of the location being left. -/
def flushLoc (cov : Nat → Fin 16 → Fin 256) (threshold : Option (Fin 256))
    (gamma : Option GammaCorrector) (st : RState) : RState :=
  { st with
    alphaBuf := st.alphaBuf ++ alphaChunk cov threshold gamma st.flushes
    flushes := st.flushes + 1 }

/-- One iteration of `render_impl`'s main loop, for the enumerated tile
`(idx, tile)` of `tiles.iter().chain([SENTINEL]).enumerate()`.
`tilesLen` is `tiles.len()`; `idx == tilesLen` is the `is_sentinel` test.
The `break` on the sentinel is modelled by returning early (the sentinel
is the last element of the chained iterator). -/
def renderStep (fillRule : FillRule) (threshold : Option (Fin 256))
    (gamma : Option GammaCorrector) (cov : Nat → Fin 16 → Fin 256)
    (tilesLen : Nat) (lines : List Line) (st : RState) (it : Nat × Tile) : RState :=
  let idx := it.1
  let tile := it.2
  -- Push out the winding as an alpha mask when moving to the next location.
  let st1 := if st.prevTile.sameLoc tile then st else flushLoc cov threshold gamma st
  if st.prevTile.sameLoc tile || st.prevTile.prevLoc tile then
    -- Not a strip break: only `prev_tile = tile` and the winding update run.
    { st1 with
      prevTile := tile
      windingDelta := st1.windingDelta + lineDelta lines tile }
  else
    -- Strip break: push the strip being built.
    let st2 := { st1 with
      stripBuf := st1.stripBuf ++ [st1.strip]
      ghost := st1.ghost ++ [some st1.prevTile.x] }
    let isSentinelTile := idx == tilesLen
    let st3 :=
      if st2.prevTile.sameRow tile then st2
      else
        -- Row change: emit the row sentinel iff the winding delta is
        -- non-zero or the sentinel tile has been reached, then reset.
        let st2' :=
          if st2.windingDelta ≠ 0 ∨ isSentinelTile = true then
            { st2 with
              stripBuf := st2.stripBuf ++
                [{ x := 65535, y := st2.prevTile.y * 4 % 2 ^ 16,
                   alphaIdx := st2.alphaBuf.length,
                   fillGap := shouldFill fillRule st2.windingDelta }]
              ghost := st2.ghost ++ [none] }
          else st2
        { st2' with windingDelta := 0 }
    if isSentinelTile then st3
    else
      let st4 := { st3 with
        strip := { x := tile.x * 4 % 2 ^ 16, y := tile.y * 4 % 2 ^ 16,
                   alphaIdx := st3.alphaBuf.length,
                   fillGap := shouldFill fillRule st3.windingDelta } }
      { st4 with
        prevTile := tile
        windingDelta := st4.windingDelta + lineDelta lines tile }

/-- Model of `render_impl`: early return on an empty tile sequence, otherwise fold
the loop body over the tiles chained with the sentinel tile.  Returns the
final strip buffer, alpha buffer and the ghost instrumentation. -/
def renderImpl (cov : Nat → Fin 16 → Fin 256) (tiles : List Tile)
    (stripBuf : List RasterStrip) (alphaBuf : List (Fin 256))
    (fillRule : FillRule) (threshold : Option (Fin 256))
    (gamma : Option GammaCorrector) (lines : List Line) :
    List RasterStrip × List (Fin 256) × List (Option Nat) :=
  match tiles with
  | [] => (stripBuf, alphaBuf, [])
  | t0 :: _ =>
    let st0 : RState :=
      { windingDelta := 0
        prevTile := t0
        strip := { x := t0.x * 4 % 2 ^ 16, y := t0.y * 4 % 2 ^ 16,
                   alphaIdx := alphaBuf.length, fillGap := false }
        stripBuf := stripBuf
        alphaBuf := alphaBuf
        flushes := 0
        ghost := [] }
    let fin := ((tiles ++ [sentinelTile]).enum).foldl
      (renderStep fillRule threshold gamma cov tiles.length lines) st0
    (fin.stripBuf, fin.alphaBuf, fin.ghost)

/-- Model of `render`: the SIMD-level dispatch wrapper around `render_impl`. -/
def render (cov : Nat → Fin 16 → Fin 256) (tiles : List Tile)
    (stripBuf : List RasterStrip) (alphaBuf : List (Fin 256))
    (fillRule : FillRule) (threshold : Option (Fin 256))
    (gamma : Option GammaCorrector) (lines : List Line) :
    List RasterStrip × List (Fin 256) × List (Option Nat) :=
  renderImpl cov tiles stripBuf alphaBuf fillRule threshold gamma lines

/-! # Slot scheduler (vello_hybrid/src/schedule.rs)

`Cmd`, `WideTile` and `Paint` live in `vello_common::coarse` /
`vello_common::paint`, which are not under `src/`; their shapes are
modelled from the spec.  Paints are modelled as the premultiplied RGBA
`u32` they resolve to (the colour conversion is an external collaborator).
The renderer delegate (`RendererJunk`) is modelled as an event log.
Panics (`unwrap`, failed slot allocation, `unimplemented!`, out-of-range
indexing) become `none`; `debug_assert!`s, which release builds elide,
are not modelled.  The `while` loops are realised with explicit fuel
equal to the rounds-queue length, which strictly decreases at every
`flush`. -/

/-- Model of `usize::MAX` (`!0`), the sentinel slot index of the bottom `TileEl`. -/
def usizeMax : Nat := 2 ^ 64 - 1

/-- Model of `GpuStrip`: the instanced vertex record sent to the GPU. -/
structure GpuStrip where
  x : Nat
  y : Nat
  width : Nat
  denseWidth : Nat
  col : Nat
  rgba : Nat
deriving DecidableEq

/-- Modelled from the spec: `vello_common::paint::Paint`, with solid
colours already resolved to premultiplied RGBA `u32`. -/
inductive Paint where
  | solid (rgba : Nat)
  | indexed (idx : Nat)

/-- Modelled from the spec: `Cmd::Fill`. -/
structure CmdFill where
  x : Nat
  width : Nat
  paint : Paint

/-- Modelled from the spec: `Cmd::AlphaFill`. -/
structure CmdAlphaFill where
  x : Nat
  width : Nat
  alphaIdx : Nat
  paint : Paint

/-- Modelled from the spec: `Cmd::ClipFill` (`x`, `width` are `u32`). -/
structure CmdClipFill where
  x : Nat
  width : Nat

/-- Modelled from the spec: `Cmd::ClipStrip`. -/
structure CmdClipStrip where
  x : Nat
  width : Nat
  alphaIdx : Nat

/-- Modelled from the spec: the wide-tile command list alphabet. -/
inductive Cmd where
  | fill (f : CmdFill)
  | alphaFill (f : CmdAlphaFill)
  | pushBuf
  | popBuf
  | clipFill (f : CmdClipFill)
  | clipStrip (f : CmdClipStrip)

/-- Modelled from the spec: a `WideTile` - background colour (as
premultiplied RGBA `u32`) plus its command list. -/
structure WideTile where
  bg : Nat
  cmds : List Cmd

/-- The `Scene` as consumed by `Schedule::do_scene`: pixel dimensions and
the row-major wide-tile list (`scene.wide.tiles`). -/
structure Scene where
  width : Nat
  height : Nat
  tiles : List WideTile

/-- Model of `wgpu::LoadOp` as used by `flush`. -/
inductive LoadOp where
  | load
  | clearOp
deriving DecidableEq

/-- The renderer delegate's observable calls (`RendererJunk`):
`clear_slots` and `do_clip_render_pass`. -/
inductive Event where
  | clearSlots (textureIx : Nat) (slots : List Nat)
  | clipRenderPass (strips : List GpuStrip) (round : Nat) (targetIx : Nat) (loadOp : LoadOp)

/-- A `Round`: draw lists for the three render targets
(`[even clip depth, odd depth, final target]`) plus the two per-texture
lists of slots to free after the round completes. -/
structure Round where
  d0 : List GpuStrip
  d1 : List GpuStrip
  d2 : List GpuStrip
  f0 : List Nat
  f1 : List Nat

/-- Model of `Round::default()`. -/
def Round.default : Round := { d0 := [], d1 := [], d2 := [], f0 := [], f1 := [] }

/-- Model of `round.draws[i]`. -/
def Round.drawsAt (r : Round) (i : Nat) : List GpuStrip :=
  if i = 0 then r.d0 else if i = 1 then r.d1 else r.d2

/-- Write `round.draws[i]`. -/
def Round.setDrawsAt (r : Round) (i : Nat) (l : List GpuStrip) : Round :=
  if i = 0 then { r with d0 := l } else if i = 1 then { r with d1 := l } else { r with d2 := l }

/-- Model of `round.free[i]`. -/
def Round.freeAt (r : Round) (i : Nat) : List Nat :=
  if i = 0 then r.f0 else r.f1

/-- Model of `TileEl`: per-wide-tile stack element. -/
structure TileEl where
  slotIx : Nat
  round : Nat
deriving DecidableEq

/-- The `Schedule` state. -/
structure Schedule where
  round : Nat
  totalSlots : Nat
  free0 : List Nat
  free1 : List Nat
  clear0 : List Nat
  clear1 : List Nat
  roundsQueue : List Round

/-- Model of `self.free[i]`. -/
def Schedule.freeAt (s : Schedule) (i : Nat) : List Nat :=
  if i = 0 then s.free0 else s.free1

/-- Write `self.free[i]`. -/
def Schedule.setFreeAt (s : Schedule) (i : Nat) (l : List Nat) : Schedule :=
  if i = 0 then { s with free0 := l } else { s with free1 := l }

/-- Model of `self.clear[i]`. -/
def Schedule.clearAt (s : Schedule) (i : Nat) : List Nat :=
  if i = 0 then s.clear0 else s.clear1

/-- Write `self.clear[i]`. -/
def Schedule.setClearAt (s : Schedule) (i : Nat) (l : List Nat) : Schedule :=
  if i = 0 then { s with clear0 := l } else { s with clear1 := l }

/-- Model of `Schedule::new`: both free pools filled with `0..total_slots`, empty
clear lists, one default round queued. -/
def Schedule.new (totalSlots : Nat) : Schedule :=
  { round := 0
    totalSlots := totalSlots
    free0 := List.range totalSlots
    free1 := List.range totalSlots
    clear0 := []
    clear1 := []
    roundsQueue := [Round.default] }

/-- Model of `has_non_zero_alpha`: `rgba >= 0x1_00_00_00`. -/
def hasNonZeroAlpha (rgba : Nat) : Bool := 0x1000000 ≤ rgba

/-- The body of `flush`'s `for (i, draw) in round.draws.iter().enumerate()`
loop: skip empty draw lists; final target loads; a clip texture either
clears wholesale (when every slot is free or pending clear) or first
issues a dedicated `clear_slots` pass, emptying the clear list either
way. -/
def flushDrawStep (round : Round) (acc : Schedule × List Event) (i : Nat) :
    Schedule × List Event :=
  let s := acc.1
  let log := acc.2
  let draw := round.drawsAt i
  if draw.isEmpty then (s, log)
  else if i = 2 then
    (s, log ++ [Event.clipRenderPass draw s.round 2 LoadOp.load])
  else if (s.clearAt i).length + (s.freeAt i).length = s.totalSlots then
    (s.setClearAt i [], log ++ [Event.clipRenderPass draw s.round i LoadOp.clearOp])
  else
    (s.setClearAt i [],
     log ++ [Event.clearSlots i (s.clearAt i),
             Event.clipRenderPass draw s.round i LoadOp.load])

/-- Model of `Schedule::flush`: pop the head round (callers guarantee the queue is
non-empty; popping an empty queue would `unwrap`-panic and is modelled as
a no-op that no caller reaches), issue its passes, then the
`for i in 0..1` loop - which, as written in the source, returns the
round's queued frees only to `free[0]` - and advance `round`. -/
def Schedule.flush (s : Schedule) (log : List Event) : Schedule × List Event :=
  match s.roundsQueue with
  | [] => (s, log)
  | round :: rest =>
    let acc := (List.range 3).foldl (flushDrawStep round)
      ({ s with roundsQueue := rest }, log)
    let s2 := (List.range 1).foldl
      (fun s i => s.setFreeAt i (s.freeAt i ++ round.freeAt i)) acc.1
    ({ s2 with round := s2.round + 1 }, acc.2)

/-- The `ix` computation of `Schedule::draw_mut`: final target at clip
depth 1, otherwise texture `1 - clip_depth % 2`. -/
def clipTargetIndex (clipDepth : Nat) : Nat :=
  if clipDepth = 1 then 2 else 1 - clipDepth % 2

/-- Model of `Schedule::draw_mut` fused with the caller's `draw.0.push(strip)`:
select the round at `el_round.saturating_sub(self.round)` (extending the
queue by one default round when it is exactly one short), and append the
strip to its draw list `clipTargetIndex clip_depth`.  Indexing past the
queue end panics in the source (`none` here). -/
def Schedule.drawMutPush (s : Schedule) (elRound clipDepth : Nat)
    (strip : GpuStrip) : Option Schedule :=
  let ix := clipTargetIndex clipDepth
  let relRound := elRound - s.round
  let q := if s.roundsQueue.length = relRound
    then s.roundsQueue ++ [Round.default] else s.roundsQueue
  match q.get? relRound with
  | none => none
  | some r =>
    some { s with roundsQueue := q.set relRound (r.setDrawsAt ix (r.drawsAt ix ++ [strip])) }

/-- The slot-allocation `while` loop of `Cmd::PushBuf`: while `free[ix]`
is empty, fail if the rounds queue is empty, otherwise flush one round.
The fuel is the caller's queue length; `flush` strictly shrinks the
queue, so the loop runs at most that often before the queue empties. -/
def allocSlotLoop (ix : Nat) : Nat → Schedule → List Event → Option (Schedule × List Event)
  | 0, s, log => if (s.freeAt ix).isEmpty then none else some (s, log)
  | fuel + 1, s, log =>
    if (s.freeAt ix).isEmpty then
      if s.roundsQueue.isEmpty then none
      else
        let r := s.flush log
        allocSlotLoop ix fuel r.1 r.2
    else some (s, log)

/-- One command of `Schedule::do_tile`'s `for cmd in &tile.cmds` loop.
The state is the schedule, the per-tile `TileEl` stack and the event log;
`clip_depth = state.stack.len()`. -/
def doCmd (wideTileX wideTileY : Nat)
    (acc : Schedule × List TileEl × List Event) (cmd : Cmd) :
    Option (Schedule × List TileEl × List Event) :=
  let s := acc.1
  let stack := acc.2.1
  let log := acc.2.2
  let clipDepth := stack.length
  match cmd with
  | .fill f =>
    match stack.getLast? with
    | none => none
    | some el =>
      match f.paint with
      | .indexed _ => none
      | .solid rgba =>
        let xy := if clipDepth = 1
          then ((wideTileX + f.x) % 2 ^ 16, wideTileY)
          else (f.x, el.slotIx % 2 ^ 16 * 4 % 2 ^ 16)
        match s.drawMutPush el.round clipDepth
          { x := xy.1, y := xy.2, width := f.width, denseWidth := 0, col := 0, rgba := rgba } with
        | none => none
        | some s' => some (s', stack, log)
  | .alphaFill f =>
    match stack.getLast? with
    | none => none
    | some el =>
      match f.paint with
      | .indexed _ => none
      | .solid rgba =>
        if f.alphaIdx / 4 < 2 ^ 32 then
          let xy := if clipDepth = 1
            then ((wideTileX + f.x) % 2 ^ 16, wideTileY)
            else (f.x, el.slotIx % 2 ^ 16 * 4 % 2 ^ 16)
          match s.drawMutPush el.round clipDepth
            { x := xy.1, y := xy.2, width := f.width, denseWidth := f.width,
              col := f.alphaIdx / 4, rgba := rgba } with
          | none => none
          | some s' => some (s', stack, log)
        else none
  | .pushBuf =>
    let ix := clipDepth % 2
    match allocSlotLoop ix s.roundsQueue.length s log with
    | none => none
    | some (s1, log1) =>
      match (s1.freeAt ix).getLast? with
      | none => none
      | some slotIx =>
        let s2 := s1.setFreeAt ix (s1.freeAt ix).dropLast
        let s3 := s2.setClearAt ix (s2.clearAt ix ++ [slotIx % 2 ^ 32])
        some (s3, stack ++ [{ slotIx := slotIx, round := s3.round }], log1)
  | .popBuf =>
    match stack.getLast? with
    | none => none
    | some tos =>
      let stack1 := stack.dropLast
      match stack1.getLast? with
      | none => none
      | some nos =>
        let nextRound := clipDepth % 2 = 0 ∧ 2 < clipDepth
        let round := max nos.round (tos.round + if nextRound then 1 else 0)
        let stack2 := stack1.dropLast ++ [{ nos with round := round }]
        if h : s.round ≤ round ∧ round - s.round < s.roundsQueue.length then
          let r := s.roundsQueue.get ⟨round - s.round, h.2⟩
          let r' := if 1 - clipDepth % 2 = 0
            then { r with f0 := r.f0 ++ [tos.slotIx] }
            else { r with f1 := r.f1 ++ [tos.slotIx] }
          some ({ s with roundsQueue := s.roundsQueue.set (round - s.round) r' }, stack2, log)
        else none
  | .clipFill f =>
    match stack.get? (clipDepth - 1), stack.get? (clipDepth - 2) with
    | some tos, some nos =>
      if clipDepth < 2 then none
      else
        let nextRound := clipDepth % 2 = 0 ∧ 2 < clipDepth
        let round := max nos.round (tos.round + if nextRound then 1 else 0)
        let xy := if clipDepth ≤ 2
          then ((wideTileX + f.x % 2 ^ 16) % 2 ^ 16, wideTileY)
          else (f.x % 2 ^ 16, nos.slotIx % 2 ^ 16 * 4 % 2 ^ 16)
        match s.drawMutPush round (clipDepth - 1)
          { x := xy.1, y := xy.2, width := f.width % 2 ^ 16, denseWidth := 0,
            col := 0, rgba := tos.slotIx % 2 ^ 32 } with
        | none => none
        | some s' => some (s', stack, log)
    | _, _ => none
  | .clipStrip f =>
    match stack.get? (clipDepth - 1), stack.get? (clipDepth - 2) with
    | some tos, some nos =>
      if clipDepth < 2 then none
      else if f.alphaIdx / 4 < 2 ^ 32 then
        let nextRound := clipDepth % 2 = 0 ∧ 2 < clipDepth
        let round := max nos.round (tos.round + if nextRound then 1 else 0)
        let xy := if clipDepth ≤ 2
          then ((wideTileX + f.x % 2 ^ 16) % 2 ^ 16, wideTileY)
          else (f.x % 2 ^ 16, nos.slotIx % 2 ^ 16 * 4 % 2 ^ 16)
        match s.drawMutPush round (clipDepth - 1)
          { x := xy.1, y := xy.2, width := f.width % 2 ^ 16,
            denseWidth := f.width % 2 ^ 16,
            col := f.alphaIdx / 4, rgba := tos.slotIx % 2 ^ 32 } with
        | none => none
        | some s' => some (s', stack, log)
      else none
    | _, _ => none

/-- Model of `Schedule::do_tile`: reset the stack to the sentinel `TileEl`, draw a
non-transparent background to the final target, then process the
commands. -/
def Schedule.doTile (s : Schedule) (log : List Event)
    (wideTileX wideTileY : Nat) (tile : WideTile) :
    Option (Schedule × List Event) :=
  let stack0 : List TileEl := [{ slotIx := usizeMax, round := s.round }]
  let bg := tile.bg
  let init : Option (Schedule × List TileEl × List Event) :=
    if hasNonZeroAlpha bg then
      match s.drawMutPush s.round 1
        { x := wideTileX, y := wideTileY, width := 256, denseWidth := 0,
          col := 0, rgba := bg } with
      | none => none
      | some s' => some (s', stack0, log)
    else some (s, stack0, log)
  match init with
  | none => none
  | some acc0 =>
    match tile.cmds.foldl
      (fun macc cmd => match macc with
        | none => none
        | some acc => doCmd wideTileX wideTileY acc cmd) (some acc0) with
    | none => none
    | some acc => some (acc.1, acc.2.2)

/-- The end-of-scene `while !self.rounds_queue.is_empty() { self.flush }`
loop, fuelled by the queue length. -/
def flushAll : Nat → Schedule → List Event → Schedule × List Event
  | 0, s, log => (s, log)
  | fuel + 1, s, log =>
    if s.roundsQueue.isEmpty then (s, log)
    else
      let r := s.flush log
      flushAll fuel r.1 r.2

/-- Model of `Schedule::do_scene`: left-to-right, top-to-bottom iteration over the
wide tiles, then flush every queued round. -/
def Schedule.doScene (s : Schedule) (scene : Scene) : Option (Schedule × List Event) :=
  let wideTilesPerRow := (scene.width + 255) / 256
  let wideTilesPerCol := (scene.height + 3) / 4
  let afterTiles := (List.range wideTilesPerCol).foldl
    (fun macc row => (List.range wideTilesPerRow).foldl
      (fun macc col =>
        match macc with
        | none => none
        | some (s, log) =>
          match scene.tiles.get? (row * wideTilesPerRow + col) with
          | none => none
          | some tile => s.doTile log (col * 256 % 2 ^ 16) (row * 4 % 2 ^ 16) tile)
      macc)
    (some (s, []))
  match afterTiles with
  | none => none
  | some (s, log) => some (flushAll s.roundsQueue.length s log)

/-! # Concrete inputs used by counterexamples and witnesses -/

/-- A 1x1-pixel scene (one wide tile): transparent background, one empty
clip layer (`PushBuf` immediately followed by `PopBuf`). -/
def c1Scene : Scene :=
  { width := 1, height := 1, tiles := [{ bg := 0, cmds := [Cmd.pushBuf, Cmd.popBuf] }] }

/-- A single vertical line from `(0, 0)` to `(0, 1)`. -/
def vLine : Line := { p0x := 0, p0y := 0, p1x := 0, p1y := 1 }

/-- Two tiles in distinct rows, both with zero top-edge winding, both
referencing `vLine`. -/
def c2Tiles : List Tile :=
  [{ x := 0, y := 0, lineIdx := 0, winding := 0 },
   { x := 0, y := 1, lineIdx := 0, winding := 0 }]

/-- Two tiles in the same row with a one-column gap (a strip break inside
the row). -/
def c5Tiles : List Tile :=
  [{ x := 0, y := 0, lineIdx := 0, winding := 0 },
   { x := 2, y := 0, lineIdx := 0, winding := 0 }]

/-- A trivial coverage parameter: every flushed byte is zero. -/
def covZero : Nat → Fin 16 → Fin 256 := fun _ _ => 0

/-! # Proof-side definitions: loop invariants and the sentinel-row
specification used by the claim theorems -/

/-- The alpha-index order on rasterizer strips. -/
def stripLE (a b : RasterStrip) : Prop := a.alphaIdx ≤ b.alphaIdx

/-- Invariant of the rasterizer loop carrying C6: the strips appended so
far are `alphaIdx`-sorted, the strip being built dominates the last of
them, and its index is bounded by the alpha-buffer length. -/
def MonoInv (n0 : Nat) (st : RState) : Prop :=
  n0 ≤ st.stripBuf.length ∧
  List.Chain' stripLE (st.stripBuf.drop n0) ∧
  st.strip.alphaIdx ≤ st.alphaBuf.length ∧
  (∀ x ∈ (st.stripBuf.drop n0).getLast?, x.alphaIdx ≤ st.strip.alphaIdx)

/-- The pairwise column-count relation between the appended strip list
`A` and the ghost list `G`: consecutive same-row strips (the first not a
sentinel) differ in `alpha_idx` by the spanned columns times the tile
height, where the ghost records the strip's maximal contributing tile
x-coordinate. -/
def PairProp (A : List RasterStrip) (G : List (Option Nat)) : Prop :=
  ∀ k a b, A.get? k = some a → A.get? (k + 1) = some b → a.x ≠ 65535 → a.y = b.y →
    ∃ mx, G.get? k = some (some mx) ∧
      b.alphaIdx = a.alphaIdx + ((mx + 1) * 4 - a.x) * 4

/-- Invariant of the rasterizer loop carrying C5: column-count pair
relation on the appended strips, the bridge from the last appended strip
to the strip being built, and the geometric bookkeeping of the building
strip (its x-origin, the bytes flushed so far, and coordinate bounds). -/
def ColInv (n0 : Nat) (st : RState) : Prop :=
  n0 ≤ st.stripBuf.length ∧
  st.ghost.length = st.stripBuf.length - n0 ∧
  PairProp (st.stripBuf.drop n0) st.ghost ∧
  (∀ a, (st.stripBuf.drop n0).getLast? = some a → a.x ≠ 65535 → a.y = st.strip.y →
    ∃ mx, st.ghost.getLast? = some (some mx) ∧
      st.strip.alphaIdx = a.alphaIdx + ((mx + 1) * 4 - a.x) * 4) ∧
  ∃ x0, st.strip.x = 4 * x0 ∧ x0 ≤ st.prevTile.x ∧
    st.alphaBuf.length = st.strip.alphaIdx + (st.prevTile.x - x0) * 16 ∧
    st.strip.y = 4 * st.prevTile.y ∧ st.prevTile.x < 16384 ∧ st.prevTile.y < 16384

/-- The rows that receive a sentinel, for the tiles after the first,
given the current row and its accumulated winding delta so far. -/
def specSentinelGo (lines : List Line) : List Tile → Nat → Int → List Nat
  | [], cur, _ => [cur]
  | t :: ts, cur, d =>
    if t.y = cur then specSentinelGo lines ts cur (d + lineDelta lines t)
    else (if d ≠ 0 then [cur] else []) ++ specSentinelGo lines ts t.y (lineDelta lines t)

/-- The rows that receive a sentinel, over a whole tile sequence. -/
def specSentinelRows (lines : List Line) : List Tile → List Nat
  | [] => []
  | t0 :: rest => specSentinelGo lines rest t0.y (lineDelta lines t0)

/-- The y-coordinates of the sentinel strips of a strip list, in order. -/
def sentYs (l : List RasterStrip) : List Nat :=
  (l.filter (fun s => s.x == 65535)).map (fun s => s.y)

/-! # Helper lemmas: 32-bit packing arithmetic -/

theorem land_fillGapMask_eq_zero {a : Nat} (h : a < 2 ^ 31) :
    a &&& FILL_GAP_MASK = 0 := by
  rw [FILL_GAP_MASK, Nat.and_two_pow, Nat.testBit_eq_false_of_lt h]
  rfl

theorem land_fillGapMask_ne_zero {a : Nat} (h1 : 2 ^ 31 ≤ a) (h2 : a < 2 ^ 32) :
    a &&& FILL_GAP_MASK ≠ 0 := by
  rw [FILL_GAP_MASK, Nat.and_two_pow]
  have hbit : a.testBit 31 = true := by
    rw [Nat.testBit_to_div_mod]
    have hdiv : a / 2 ^ 31 = 1 := by omega
    rw [hdiv]
    rfl
  rw [hbit]
  norm_num

theorem lor_fillGapMask_eq_add {a : Nat} (h : a < 2 ^ 31) :
    a ||| FILL_GAP_MASK = 2 ^ 31 + a := by
  rw [FILL_GAP_MASK]
  have hx32 : a ||| 2 ^ 31 < 2 ^ 32 := Nat.or_lt_two_pow (by omega) (by norm_num)
  have hhi : (a ||| 2 ^ 31).testBit 31 = true := by
    rw [Nat.testBit_lor, Nat.testBit_two_pow]
    simp
  have hmod : (a ||| 2 ^ 31) % 2 ^ 31 = a := by
    apply Nat.eq_of_testBit_eq
    intro i
    rw [Nat.testBit_mod_two_pow, Nat.testBit_lor, Nat.testBit_two_pow]
    rcases lt_or_le i 31 with hi | hi
    · simp [hi, Nat.ne_of_gt hi]
    · have h1 : a.testBit i = false :=
        Nat.testBit_eq_false_of_lt (lt_of_lt_of_le h (Nat.pow_le_pow_right (by norm_num) hi))
      simp [h1, Nat.not_lt.mpr hi]
  have hdiv : (a ||| 2 ^ 31) / 2 ^ 31 = 1 := by
    have h1 := Nat.testBit_to_div_mod (x := a ||| 2 ^ 31) (i := 31)
    rw [hhi] at h1
    have h2 : (a ||| 2 ^ 31) / 2 ^ 31 < 2 := by
      apply Nat.div_lt_of_lt_mul
      calc a ||| 2 ^ 31 < 2 ^ 32 := hx32
        _ = 2 ^ 31 * 2 := by norm_num
    have := of_decide_eq_true h1.symm
    omega
  have := Nat.div_add_mod (a ||| 2 ^ 31) (2 ^ 31)
  omega

theorem high_bit_add_testBit {a : Nat} (h : a < 2 ^ 31) :
    (2 ^ 31 + a).testBit 31 = true := by
  rw [Nat.testBit_to_div_mod]
  have hdiv : (2 ^ 31 + a) / 2 ^ 31 = 1 := by omega
  rw [hdiv]
  rfl

/-! # Helper lemmas: generic fold preservation and list facts -/

theorem foldl_preserve {α β : Type _} (P : β → Prop) (f : β → α → β) :
    ∀ (l : List α) (b : β), (∀ c x, x ∈ l → P c → P (f c x)) → P b → P (l.foldl f b) := by
  intro l
  induction l with
  | nil => intro b _ hb; exact hb
  | cons x xs ih =>
    intro b h hb
    exact ih (f b x) (fun c y hy => h c y (List.mem_cons_of_mem _ hy))
      (h b x (List.mem_cons_self _ _) hb)

theorem chain'_concat_of_getLast {α : Type _} (R : α → α → Prop) (l : List α) (a : α)
    (h2 : List.Chain' R l) (h3 : ∀ x ∈ l.getLast?, R x a) :
    List.Chain' R (l ++ [a]) := by
  rw [List.chain'_append]
  refine ⟨h2, List.chain'_singleton a, fun x hx y hy => ?_⟩
  simp only [List.head?_cons, Option.mem_def, Option.some_inj] at hy
  exact hy ▸ h3 x hx

/-! # Branch equations for `renderStep`

Each lemma evaluates one control-flow branch of the loop body; all later
invariant proofs work with these equations. -/

theorem renderStep_sameLoc (fillRule : FillRule) (threshold : Option (Fin 256))
    (gamma : Option GammaCorrector) (cov : Nat → Fin 16 → Fin 256)
    (tilesLen : Nat) (lines : List Line) (st : RState) (idx : Nat) (tile : Tile)
    (hLoc : st.prevTile.sameLoc tile = true) :
    renderStep fillRule threshold gamma cov tilesLen lines st (idx, tile) =
      { st with prevTile := tile,
                windingDelta := st.windingDelta + lineDelta lines tile } := by
  unfold renderStep
  simp [hLoc]

theorem renderStep_prevLoc (fillRule : FillRule) (threshold : Option (Fin 256))
    (gamma : Option GammaCorrector) (cov : Nat → Fin 16 → Fin 256)
    (tilesLen : Nat) (lines : List Line) (st : RState) (idx : Nat) (tile : Tile)
    (hLoc : st.prevTile.sameLoc tile = false) (hPrev : st.prevTile.prevLoc tile = true) :
    renderStep fillRule threshold gamma cov tilesLen lines st (idx, tile) =
      { st with alphaBuf := st.alphaBuf ++ alphaChunk cov threshold gamma st.flushes,
                flushes := st.flushes + 1,
                prevTile := tile,
                windingDelta := st.windingDelta + lineDelta lines tile } := by
  unfold renderStep flushLoc
  simp [hLoc, hPrev]

theorem renderStep_breakRow (fillRule : FillRule) (threshold : Option (Fin 256))
    (gamma : Option GammaCorrector) (cov : Nat → Fin 16 → Fin 256)
    (tilesLen : Nat) (lines : List Line) (st : RState) (idx : Nat) (tile : Tile)
    (hLoc : st.prevTile.sameLoc tile = false) (hPrev : st.prevTile.prevLoc tile = false)
    (hRow : st.prevTile.sameRow tile = true) (hIdx : (idx == tilesLen) = false) :
    renderStep fillRule threshold gamma cov tilesLen lines st (idx, tile) =
      { st with alphaBuf := st.alphaBuf ++ alphaChunk cov threshold gamma st.flushes,
                flushes := st.flushes + 1,
                stripBuf := st.stripBuf ++ [st.strip],
                ghost := st.ghost ++ [some st.prevTile.x],
                strip := { x := tile.x * 4 % 2 ^ 16, y := tile.y * 4 % 2 ^ 16,
                           alphaIdx := (st.alphaBuf ++ alphaChunk cov threshold gamma st.flushes).length,
                           fillGap := shouldFill fillRule st.windingDelta },
                prevTile := tile,
                windingDelta := st.windingDelta + lineDelta lines tile } := by
  unfold renderStep flushLoc
  simp [hLoc, hPrev, hRow, hIdx]

theorem renderStep_breakRowSen (fillRule : FillRule) (threshold : Option (Fin 256))
    (gamma : Option GammaCorrector) (cov : Nat → Fin 16 → Fin 256)
    (tilesLen : Nat) (lines : List Line) (st : RState) (idx : Nat) (tile : Tile)
    (hLoc : st.prevTile.sameLoc tile = false) (hPrev : st.prevTile.prevLoc tile = false)
    (hRow : st.prevTile.sameRow tile = true) (hIdx : (idx == tilesLen) = true) :
    renderStep fillRule threshold gamma cov tilesLen lines st (idx, tile) =
      { st with alphaBuf := st.alphaBuf ++ alphaChunk cov threshold gamma st.flushes,
                flushes := st.flushes + 1,
                stripBuf := st.stripBuf ++ [st.strip],
                ghost := st.ghost ++ [some st.prevTile.x] } := by
  unfold renderStep flushLoc
  simp [hLoc, hPrev, hRow, hIdx]

theorem renderStep_newRowDelta (fillRule : FillRule) (threshold : Option (Fin 256))
    (gamma : Option GammaCorrector) (cov : Nat → Fin 16 → Fin 256)
    (tilesLen : Nat) (lines : List Line) (st : RState) (idx : Nat) (tile : Tile)
    (hLoc : st.prevTile.sameLoc tile = false) (hPrev : st.prevTile.prevLoc tile = false)
    (hRow : st.prevTile.sameRow tile = false) (hIdx : (idx == tilesLen) = false)
    (hWd : st.windingDelta ≠ 0) :
    renderStep fillRule threshold gamma cov tilesLen lines st (idx, tile) =
      { st with alphaBuf := st.alphaBuf ++ alphaChunk cov threshold gamma st.flushes,
                flushes := st.flushes + 1,
                stripBuf := st.stripBuf ++ [st.strip] ++
                  [{ x := 65535, y := st.prevTile.y * 4 % 2 ^ 16,
                     alphaIdx := (st.alphaBuf ++ alphaChunk cov threshold gamma st.flushes).length,
                     fillGap := shouldFill fillRule st.windingDelta }],
                ghost := st.ghost ++ [some st.prevTile.x] ++ [none],
                strip := { x := tile.x * 4 % 2 ^ 16, y := tile.y * 4 % 2 ^ 16,
                           alphaIdx := (st.alphaBuf ++ alphaChunk cov threshold gamma st.flushes).length,
                           fillGap := shouldFill fillRule 0 },
                prevTile := tile,
                windingDelta := 0 + lineDelta lines tile } := by
  unfold renderStep flushLoc
  simp [hLoc, hPrev, hRow, hIdx, hWd]

theorem renderStep_newRowNoDelta (fillRule : FillRule) (threshold : Option (Fin 256))
    (gamma : Option GammaCorrector) (cov : Nat → Fin 16 → Fin 256)
    (tilesLen : Nat) (lines : List Line) (st : RState) (idx : Nat) (tile : Tile)
    (hLoc : st.prevTile.sameLoc tile = false) (hPrev : st.prevTile.prevLoc tile = false)
    (hRow : st.prevTile.sameRow tile = false) (hIdx : (idx == tilesLen) = false)
    (hWd : st.windingDelta = 0) :
    renderStep fillRule threshold gamma cov tilesLen lines st (idx, tile) =
      { st with alphaBuf := st.alphaBuf ++ alphaChunk cov threshold gamma st.flushes,
                flushes := st.flushes + 1,
                stripBuf := st.stripBuf ++ [st.strip],
                ghost := st.ghost ++ [some st.prevTile.x],
                strip := { x := tile.x * 4 % 2 ^ 16, y := tile.y * 4 % 2 ^ 16,
                           alphaIdx := (st.alphaBuf ++ alphaChunk cov threshold gamma st.flushes).length,
                           fillGap := shouldFill fillRule 0 },
                prevTile := tile,
                windingDelta := 0 + lineDelta lines tile } := by
  unfold renderStep flushLoc
  simp [hLoc, hPrev, hRow, hIdx, hWd]

theorem renderStep_finalSen (fillRule : FillRule) (threshold : Option (Fin 256))
    (gamma : Option GammaCorrector) (cov : Nat → Fin 16 → Fin 256)
    (tilesLen : Nat) (lines : List Line) (st : RState) (idx : Nat) (tile : Tile)
    (hLoc : st.prevTile.sameLoc tile = false) (hPrev : st.prevTile.prevLoc tile = false)
    (hRow : st.prevTile.sameRow tile = false) (hIdx : (idx == tilesLen) = true) :
    renderStep fillRule threshold gamma cov tilesLen lines st (idx, tile) =
      { st with alphaBuf := st.alphaBuf ++ alphaChunk cov threshold gamma st.flushes,
                flushes := st.flushes + 1,
                stripBuf := st.stripBuf ++ [st.strip] ++
                  [{ x := 65535, y := st.prevTile.y * 4 % 2 ^ 16,
                     alphaIdx := (st.alphaBuf ++ alphaChunk cov threshold gamma st.flushes).length,
                     fillGap := shouldFill fillRule st.windingDelta }],
                ghost := st.ghost ++ [some st.prevTile.x] ++ [none],
                windingDelta := 0 } := by
  unfold renderStep flushLoc
  simp [hLoc, hPrev, hRow, hIdx]

/-- Splitting the rasterizer fold: the real tiles first, then the
sentinel-tile step. -/
theorem renderFold_split (fillRule : FillRule) (threshold : Option (Fin 256))
    (gamma : Option GammaCorrector) (cov : Nat → Fin 16 → Fin 256)
    (lines : List Line) (tiles : List Tile) (st0 : RState) :
    ((tiles ++ [sentinelTile]).enum).foldl
        (renderStep fillRule threshold gamma cov tiles.length lines) st0 =
      renderStep fillRule threshold gamma cov tiles.length lines
        (tiles.enum.foldl (renderStep fillRule threshold gamma cov tiles.length lines) st0)
        (tiles.length, sentinelTile) := by
  rw [List.enum_append, List.foldl_append]
  rfl

theorem mem_enum_bounds {α : Type _} {l : List α} {x : Nat × α} (h : x ∈ l.enum) :
    x.1 < l.length ∧ x.2 ∈ l := by
  rw [List.mem_enum_iff_get?] at h
  obtain ⟨hlt, hget⟩ := List.get?_eq_some.mp h
  exact ⟨hlt, hget ▸ List.get_mem l _ _⟩

/-! # C6 development: monotone alpha indices -/

theorem monoInv_step {n0 : Nat} (fillRule : FillRule) (threshold : Option (Fin 256))
    (gamma : Option GammaCorrector) (cov : Nat → Fin 16 → Fin 256)
    (tilesLen : Nat) (lines : List Line) (st : RState) (it : Nat × Tile)
    (h : MonoInv n0 st) (hidx : it.1 ≠ tilesLen) :
    MonoInv n0 (renderStep fillRule threshold gamma cov tilesLen lines st it) := by
  obtain ⟨idx, tile⟩ := it
  obtain ⟨h1, h2, h3, h4⟩ := h
  have hIdx : (idx == tilesLen) = false := by simpa using hidx
  have hlen1 : n0 ≤ (st.stripBuf ++ [st.strip]).length := by
    simp only [List.length_append]; omega
  have hchain1 : List.Chain' stripLE ((st.stripBuf ++ [st.strip]).drop n0) := by
    rw [List.drop_append_of_le_length h1]
    exact chain'_concat_of_getLast _ _ _ h2 h4
  have hlast1 : ∀ x ∈ ((st.stripBuf ++ [st.strip]).drop n0).getLast?, x = st.strip := by
    intro x hx
    rw [List.drop_append_of_le_length h1, List.getLast?_concat] at hx
    have h5 : st.strip = x := by simpa using hx
    exact h5.symm
  cases hLoc : st.prevTile.sameLoc tile with
  | true =>
    rw [renderStep_sameLoc _ _ _ _ _ _ _ _ _ hLoc]
    exact ⟨h1, h2, h3, h4⟩
  | false =>
  cases hPrev : st.prevTile.prevLoc tile with
  | true =>
    rw [renderStep_prevLoc _ _ _ _ _ _ _ _ _ hLoc hPrev]
    refine ⟨h1, h2, ?_, h4⟩
    simp only [List.length_append]
    omega
  | false =>
  cases hRow : st.prevTile.sameRow tile with
  | true =>
    rw [renderStep_breakRow _ _ _ _ _ _ _ _ _ hLoc hPrev hRow hIdx]
    refine ⟨hlen1, hchain1, le_refl _, ?_⟩
    intro x hx
    have := hlast1 x hx
    subst this
    simp only [List.length_append]
    omega
  | false =>
  rcases eq_or_ne st.windingDelta 0 with hWd | hWd
  · rw [renderStep_newRowNoDelta _ _ _ _ _ _ _ _ _ hLoc hPrev hRow hIdx hWd]
    refine ⟨hlen1, hchain1, le_refl _, ?_⟩
    intro x hx
    have := hlast1 x hx
    subst this
    simp only [List.length_append]
    omega
  · rw [renderStep_newRowDelta _ _ _ _ _ _ _ _ _ hLoc hPrev hRow hIdx hWd]
    have hlen2 : n0 ≤ (st.stripBuf ++ [st.strip]).length := hlen1
    refine ⟨by simp only [List.length_append]; omega, ?_, le_refl _, ?_⟩
    · rw [List.drop_append_of_le_length hlen2]
      refine chain'_concat_of_getLast _ _ _ hchain1 ?_
      intro x hx
      have := hlast1 x hx
      subst this
      show st.strip.alphaIdx ≤ _
      simp only [List.length_append]
      omega
    · intro x hx
      rw [List.drop_append_of_le_length hlen2, List.getLast?_concat] at hx
      simp only [Option.mem_def, Option.some_inj] at hx
      subst hx
      exact le_refl _

theorem monoInv_final_chain {n0 : Nat} (fillRule : FillRule) (threshold : Option (Fin 256))
    (gamma : Option GammaCorrector) (cov : Nat → Fin 16 → Fin 256)
    (tilesLen : Nat) (lines : List Line) (st : RState) (idx : Nat) (tile : Tile)
    (h : MonoInv n0 st) :
    List.Chain' stripLE
      ((renderStep fillRule threshold gamma cov tilesLen lines st (idx, tile)).stripBuf.drop n0) := by
  obtain ⟨h1, h2, h3, h4⟩ := h
  have hlen1 : n0 ≤ (st.stripBuf ++ [st.strip]).length := by
    simp only [List.length_append]; omega
  have hchain1 : List.Chain' stripLE ((st.stripBuf ++ [st.strip]).drop n0) := by
    rw [List.drop_append_of_le_length h1]
    exact chain'_concat_of_getLast _ _ _ h2 h4
  have hlast1 : ∀ x ∈ ((st.stripBuf ++ [st.strip]).drop n0).getLast?, x = st.strip := by
    intro x hx
    rw [List.drop_append_of_le_length h1, List.getLast?_concat] at hx
    have h5 : st.strip = x := by simpa using hx
    exact h5.symm
  have hchain2 : ∀ a : RasterStrip, st.strip.alphaIdx ≤ a.alphaIdx →
      List.Chain' stripLE ((st.stripBuf ++ [st.strip] ++ [a]).drop n0) := by
    intro a ha
    rw [List.drop_append_of_le_length hlen1]
    refine chain'_concat_of_getLast _ _ _ hchain1 ?_
    intro x hx
    have := hlast1 x hx
    subst this
    exact ha
  cases hLoc : st.prevTile.sameLoc tile with
  | true =>
    rw [renderStep_sameLoc _ _ _ _ _ _ _ _ _ hLoc]
    exact h2
  | false =>
  cases hPrev : st.prevTile.prevLoc tile with
  | true =>
    rw [renderStep_prevLoc _ _ _ _ _ _ _ _ _ hLoc hPrev]
    exact h2
  | false =>
  cases hIdx : (idx == tilesLen) with
  | true =>
    cases hRow : st.prevTile.sameRow tile with
    | true =>
      rw [renderStep_breakRowSen _ _ _ _ _ _ _ _ _ hLoc hPrev hRow hIdx]
      exact hchain1
    | false =>
      rw [renderStep_finalSen _ _ _ _ _ _ _ _ _ hLoc hPrev hRow hIdx]
      refine hchain2 _ ?_
      show st.strip.alphaIdx ≤ _
      simp only [List.length_append]
      omega
  | false =>
    cases hRow : st.prevTile.sameRow tile with
    | true =>
      rw [renderStep_breakRow _ _ _ _ _ _ _ _ _ hLoc hPrev hRow hIdx]
      exact hchain1
    | false =>
      rcases eq_or_ne st.windingDelta 0 with hWd | hWd
      · rw [renderStep_newRowNoDelta _ _ _ _ _ _ _ _ _ hLoc hPrev hRow hIdx hWd]
        exact hchain1
      · rw [renderStep_newRowDelta _ _ _ _ _ _ _ _ _ hLoc hPrev hRow hIdx hWd]
        refine hchain2 _ ?_
        show st.strip.alphaIdx ≤ _
        simp only [List.length_append]
        omega

/-! # C5 development: the column-count invariant -/

theorem alphaChunk_length (cov : Nat → Fin 16 → Fin 256) (threshold : Option (Fin 256))
    (gamma : Option GammaCorrector) (n : Nat) :
    (alphaChunk cov threshold gamma n).length = 16 := by
  simp [alphaChunk]

theorem sameLoc_iff {a b : Tile} : a.sameLoc b = true ↔ a.x = b.x ∧ a.y = b.y := by
  simp [Tile.sameLoc]

theorem prevLoc_iff {a b : Tile} : a.prevLoc b = true ↔ a.x + 1 = b.x ∧ a.y = b.y := by
  simp [Tile.prevLoc]

theorem sameRow_iff {a b : Tile} : a.sameRow b = true ↔ a.y = b.y := by
  simp [Tile.sameRow]

theorem pairProp_push (A : List RasterStrip) (G : List (Option Nat))
    (a : RasterStrip) (g : Option Nat)
    (hlen : G.length = A.length) (hp : PairProp A G)
    (hbridge : ∀ x, A.getLast? = some x → x.x ≠ 65535 → x.y = a.y →
      ∃ mx, G.getLast? = some (some mx) ∧
        a.alphaIdx = x.alphaIdx + ((mx + 1) * 4 - x.x) * 4) :
    PairProp (A ++ [a]) (G ++ [g]) := by
  intro k p q hkp hkq hx hyy
  rcases lt_trichotomy (k + 1) A.length with hlt | heq | hgt
  · rw [List.get?_append (by omega)] at hkp hkq
    obtain ⟨mx, h1, h2⟩ := hp k p q hkp hkq hx hyy
    exact ⟨mx, by rw [List.get?_append (by omega)]; exact h1, h2⟩
  · have hkA : k < A.length := by omega
    rw [List.get?_append hkA] at hkp
    have hq : q = a := by
      rw [heq, List.get?_concat_length] at hkq
      exact (Option.some_inj.mp hkq).symm
    have hplast : A.getLast? = some p := by
      rw [List.getLast?_eq_get?]
      have hk1 : A.length - 1 = k := by omega
      rw [hk1]
      exact hkp
    obtain ⟨mx, h1, h2⟩ := hbridge p hplast hx (by rw [← hq]; exact hyy)
    refine ⟨mx, ?_, by rw [hq]; exact h2⟩
    rw [List.get?_append (by omega)]
    rw [List.getLast?_eq_get?] at h1
    have hk1 : G.length - 1 = k := by omega
    rw [hk1] at h1
    exact h1
  · exfalso
    have hnone : (A ++ [a]).get? (k + 1) = none := by
      rw [List.get?_eq_none]
      simp only [List.length_append, List.length_singleton]
      omega
    rw [hnone] at hkq
    exact Option.noConfusion hkq

theorem colInv_step {n0 : Nat} (fillRule : FillRule) (threshold : Option (Fin 256))
    (gamma : Option GammaCorrector) (cov : Nat → Fin 16 → Fin 256)
    (tilesLen : Nat) (lines : List Line) (st : RState) (idx : Nat) (tile : Tile)
    (h : ColInv n0 st) (hidx : (idx == tilesLen) = false)
    (hbx : tile.x < 16384) (hby : tile.y < 16384) :
    ColInv n0 (renderStep fillRule threshold gamma cov tilesLen lines st (idx, tile)) := by
  obtain ⟨h1, h2, h3, h4, x0, hx0, hx0le, hlen, hyeq, hpx, hpy⟩ := h
  have hx4 : tile.x * 4 % 2 ^ 16 = 4 * tile.x := by omega
  have hy4 : tile.y * 4 % 2 ^ 16 = 4 * tile.y := by omega
  have hdrop : (st.stripBuf ++ [st.strip]).drop n0 = st.stripBuf.drop n0 ++ [st.strip] :=
    List.drop_append_of_le_length h1
  have hpush : PairProp (st.stripBuf.drop n0 ++ [st.strip]) (st.ghost ++ [some st.prevTile.x]) := by
    refine pairProp_push _ _ _ _ (by simp only [List.length_drop]; omega) h3 ?_
    intro x hxl hxs hxy
    exact h4 x hxl hxs hxy
  have hAlen : (st.alphaBuf ++ alphaChunk cov threshold gamma st.flushes).length =
      st.strip.alphaIdx + ((st.prevTile.x + 1) * 4 - st.strip.x) * 4 := by
    simp only [List.length_append, alphaChunk_length]
    rw [hlen, hx0]
    have h44 : (st.prevTile.x + 1) * 4 - 4 * x0 = (st.prevTile.x + 1 - x0) * 4 := by omega
    rw [h44]
    omega
  cases hLoc : st.prevTile.sameLoc tile with
  | true =>
    obtain ⟨hsx, hsy⟩ := sameLoc_iff.mp hLoc
    rw [renderStep_sameLoc _ _ _ _ _ _ _ _ _ hLoc]
    exact ⟨h1, h2, h3, h4, x0, hx0, hsx ▸ hx0le, hsx ▸ hlen, hsy ▸ hyeq, hbx, hby⟩
  | false =>
  cases hPrev : st.prevTile.prevLoc tile with
  | true =>
    obtain ⟨hsx, hsy⟩ := prevLoc_iff.mp hPrev
    rw [renderStep_prevLoc _ _ _ _ _ _ _ _ _ hLoc hPrev]
    refine ⟨h1, h2, h3, h4, x0, hx0, ?_, ?_, hsy ▸ hyeq, hbx, hby⟩
    · show x0 ≤ tile.x
      omega
    · show (st.alphaBuf ++ alphaChunk cov threshold gamma st.flushes).length =
        st.strip.alphaIdx + (tile.x - x0) * 16
      simp only [List.length_append, alphaChunk_length]
      omega
  | false =>
  cases hRow : st.prevTile.sameRow tile with
  | true =>
    have hsy := sameRow_iff.mp hRow
    rw [renderStep_breakRow _ _ _ _ _ _ _ _ _ hLoc hPrev hRow hidx]
    refine ⟨?_, ?_, ?_, ?_, tile.x, ?_, le_refl _, ?_, ?_, hbx, hby⟩
    · show n0 ≤ (st.stripBuf ++ [st.strip]).length
      simp only [List.length_append]
      omega
    · show (st.ghost ++ [some st.prevTile.x]).length = (st.stripBuf ++ [st.strip]).length - n0
      simp only [List.length_append, List.length_singleton]
      omega
    · show PairProp ((st.stripBuf ++ [st.strip]).drop n0) (st.ghost ++ [some st.prevTile.x])
      rw [hdrop]
      exact hpush
    · intro a hal hans hay
      rw [hdrop, List.getLast?_concat] at hal
      have ha : a = st.strip := (Option.some_inj.mp hal).symm
      subst ha
      exact ⟨st.prevTile.x, by rw [List.getLast?_concat], hAlen⟩
    · show tile.x * 4 % 2 ^ 16 = 4 * tile.x
      exact hx4
    · show (st.alphaBuf ++ alphaChunk cov threshold gamma st.flushes).length =
        (st.alphaBuf ++ alphaChunk cov threshold gamma st.flushes).length + (tile.x - tile.x) * 16
      omega
    · show tile.y * 4 % 2 ^ 16 = 4 * tile.y
      exact hy4
  | false =>
  have hrowne : st.prevTile.y ≠ tile.y := by
    intro hcon
    have hcon2 := sameRow_iff.mpr hcon
    rw [hRow] at hcon2
    exact Bool.noConfusion hcon2
  rcases eq_or_ne st.windingDelta 0 with hWd | hWd
  · rw [renderStep_newRowNoDelta _ _ _ _ _ _ _ _ _ hLoc hPrev hRow hidx hWd]
    refine ⟨?_, ?_, ?_, ?_, tile.x, ?_, le_refl _, ?_, ?_, hbx, hby⟩
    · show n0 ≤ (st.stripBuf ++ [st.strip]).length
      simp only [List.length_append]
      omega
    · show (st.ghost ++ [some st.prevTile.x]).length = (st.stripBuf ++ [st.strip]).length - n0
      simp only [List.length_append, List.length_singleton]
      omega
    · show PairProp ((st.stripBuf ++ [st.strip]).drop n0) (st.ghost ++ [some st.prevTile.x])
      rw [hdrop]
      exact hpush
    · intro a hal hans hay
      rw [hdrop, List.getLast?_concat] at hal
      have ha : a = st.strip := (Option.some_inj.mp hal).symm
      subst ha
      exfalso
      have hy1 : st.strip.y = 4 * st.prevTile.y := hyeq
      have hy2 : st.strip.y = tile.y * 4 % 2 ^ 16 := hay
      omega
    · show tile.x * 4 % 2 ^ 16 = 4 * tile.x
      exact hx4
    · show (st.alphaBuf ++ alphaChunk cov threshold gamma st.flushes).length =
        (st.alphaBuf ++ alphaChunk cov threshold gamma st.flushes).length + (tile.x - tile.x) * 16
      omega
    · show tile.y * 4 % 2 ^ 16 = 4 * tile.y
      exact hy4
  · rw [renderStep_newRowDelta _ _ _ _ _ _ _ _ _ hLoc hPrev hRow hidx hWd]
    have hpush2 : PairProp (st.stripBuf.drop n0 ++ [st.strip] ++ [RasterStrip.mk 65535 (st.prevTile.y * 4 % 2 ^ 16) (st.alphaBuf ++ alphaChunk cov threshold gamma st.flushes).length (shouldFill fillRule st.windingDelta)]) (st.ghost ++ [some st.prevTile.x] ++ [none]) := by
      refine pairProp_push _ _ _ _
        (by simp only [List.length_append, List.length_drop, List.length_singleton]; omega)
        hpush ?_
      intro x hxl hxs hxy
      rw [List.getLast?_concat] at hxl
      have hx' : x = st.strip := (Option.some_inj.mp hxl).symm
      subst hx'
      exact ⟨st.prevTile.x, by rw [List.getLast?_concat], hAlen⟩
    refine ⟨?_, ?_, ?_, ?_, tile.x, ?_, le_refl _, ?_, ?_, hbx, hby⟩
    · show n0 ≤ (st.stripBuf ++ [st.strip] ++ [RasterStrip.mk 65535 (st.prevTile.y * 4 % 2 ^ 16) (st.alphaBuf ++ alphaChunk cov threshold gamma st.flushes).length (shouldFill fillRule st.windingDelta)]).length
      simp only [List.length_append]
      omega
    · show (st.ghost ++ [some st.prevTile.x] ++ [none]).length = (st.stripBuf ++ [st.strip] ++ [RasterStrip.mk 65535 (st.prevTile.y * 4 % 2 ^ 16) (st.alphaBuf ++ alphaChunk cov threshold gamma st.flushes).length (shouldFill fillRule st.windingDelta)]).length - n0
      simp only [List.length_append, List.length_singleton]
      omega
    · show PairProp ((st.stripBuf ++ [st.strip] ++ [RasterStrip.mk 65535 (st.prevTile.y * 4 % 2 ^ 16) (st.alphaBuf ++ alphaChunk cov threshold gamma st.flushes).length (shouldFill fillRule st.windingDelta)]).drop n0) (st.ghost ++ [some st.prevTile.x] ++ [none])
      rw [List.drop_append_of_le_length (by simp only [List.length_append]; omega), hdrop]
      exact hpush2
    · intro a hal hans hay
      exfalso
      have hal2 : ((st.stripBuf ++ [st.strip] ++ [RasterStrip.mk 65535 (st.prevTile.y * 4 % 2 ^ 16) (st.alphaBuf ++ alphaChunk cov threshold gamma st.flushes).length (shouldFill fillRule st.windingDelta)]).drop n0).getLast? = some a := hal
      rw [List.drop_append_of_le_length (by simp only [List.length_append]; omega),
        List.getLast?_concat] at hal2
      have ha : a = _ := (Option.some_inj.mp hal2).symm
      exact hans (by rw [ha])
    · show tile.x * 4 % 2 ^ 16 = 4 * tile.x
      exact hx4
    · show (st.alphaBuf ++ alphaChunk cov threshold gamma st.flushes).length =
        (st.alphaBuf ++ alphaChunk cov threshold gamma st.flushes).length + (tile.x - tile.x) * 16
      omega
    · show tile.y * 4 % 2 ^ 16 = 4 * tile.y
      exact hy4

theorem colInv_final {n0 : Nat} (fillRule : FillRule) (threshold : Option (Fin 256))
    (gamma : Option GammaCorrector) (cov : Nat → Fin 16 → Fin 256)
    (tilesLen : Nat) (lines : List Line) (st : RState) (h : ColInv n0 st) :
    PairProp ((renderStep fillRule threshold gamma cov tilesLen lines st
        (tilesLen, sentinelTile)).stripBuf.drop n0)
      (renderStep fillRule threshold gamma cov tilesLen lines st
        (tilesLen, sentinelTile)).ghost := by
  obtain ⟨h1, h2, h3, h4, x0, hx0, hx0le, hlen, hyeq, hpx, hpy⟩ := h
  have hIdx : (tilesLen == tilesLen) = true := by simp
  have hLoc : st.prevTile.sameLoc sentinelTile = false := by
    rw [Bool.eq_false_iff]
    intro hcon
    have hcy := (sameLoc_iff.mp hcon).2
    simp only [sentinelTile] at hcy
    omega
  have hPrev : st.prevTile.prevLoc sentinelTile = false := by
    rw [Bool.eq_false_iff]
    intro hcon
    have hcy := (prevLoc_iff.mp hcon).2
    simp only [sentinelTile] at hcy
    omega
  have hRow : st.prevTile.sameRow sentinelTile = false := by
    rw [Bool.eq_false_iff]
    intro hcon
    have hcy := sameRow_iff.mp hcon
    simp only [sentinelTile] at hcy
    omega
  have hdrop : (st.stripBuf ++ [st.strip]).drop n0 = st.stripBuf.drop n0 ++ [st.strip] :=
    List.drop_append_of_le_length h1
  have hpush : PairProp (st.stripBuf.drop n0 ++ [st.strip]) (st.ghost ++ [some st.prevTile.x]) := by
    refine pairProp_push _ _ _ _ (by simp only [List.length_drop]; omega) h3 ?_
    intro x hxl hxs hxy
    exact h4 x hxl hxs hxy
  have hAlen : (st.alphaBuf ++ alphaChunk cov threshold gamma st.flushes).length =
      st.strip.alphaIdx + ((st.prevTile.x + 1) * 4 - st.strip.x) * 4 := by
    simp only [List.length_append, alphaChunk_length]
    rw [hlen, hx0]
    have h44 : (st.prevTile.x + 1) * 4 - 4 * x0 = (st.prevTile.x + 1 - x0) * 4 := by omega
    rw [h44]
    omega
  rw [renderStep_finalSen _ _ _ _ _ _ _ _ _ hLoc hPrev hRow hIdx]
  show PairProp ((st.stripBuf ++ [st.strip] ++ [RasterStrip.mk 65535 (st.prevTile.y * 4 % 2 ^ 16) (st.alphaBuf ++ alphaChunk cov threshold gamma st.flushes).length (shouldFill fillRule st.windingDelta)]).drop n0) (st.ghost ++ [some st.prevTile.x] ++ [none])
  rw [List.drop_append_of_le_length (by simp only [List.length_append]; omega), hdrop]
  refine pairProp_push _ _ _ _
    (by simp only [List.length_append, List.length_drop, List.length_singleton]; omega)
    hpush ?_
  intro x hxl hxs hxy
  rw [List.getLast?_concat] at hxl
  have hx' : x = st.strip := (Option.some_inj.mp hxl).symm
  subst hx'
  exact ⟨st.prevTile.x, by rw [List.getLast?_concat], hAlen⟩

/-! # C2 development: which rows get sentinels

`specSentinelGo` replays the row bookkeeping of the rasterizer loop at
the specification level: walk the (row-sorted) tiles, accumulate the
current row's winding delta, emit the departing row at each row change
iff its delta is non-zero, and always emit the final row. -/

theorem sentYs_append (a b : List RasterStrip) : sentYs (a ++ b) = sentYs a ++ sentYs b := by
  simp [sentYs]

theorem sentYs_nonsen (s : RasterStrip) (h : s.x % 4 = 0) : sentYs [s] = [] := by
  have hne : (s.x == 65535) = false := by
    simp only [beq_eq_false_iff_ne]
    omega
  simp [sentYs, hne]

theorem sentYs_sen (y i : Nat) (f : Bool) :
    sentYs [RasterStrip.mk 65535 y i f] = [y] := by
  simp [sentYs]

theorem c2_go (fillRule : FillRule) (threshold : Option (Fin 256))
    (gamma : Option GammaCorrector) (cov : Nat → Fin 16 → Fin 256)
    (tilesLen : Nat) (lines : List Line) :
    ∀ (rest : List Tile) (k : Nat) (st : RState) (n0 : Nat),
      k + rest.length ≤ tilesLen →
      (∀ t ∈ rest, t.x < 16384 ∧ t.y < 16384) →
      List.Chain' (fun a b : Tile => a.y ≤ b.y) (st.prevTile :: rest) →
      st.prevTile.x < 16384 → st.prevTile.y < 16384 →
      st.strip.x % 4 = 0 →
      n0 ≤ st.stripBuf.length →
      sentYs ((List.foldl (renderStep fillRule threshold gamma cov tilesLen lines) st
          (List.enumFrom k rest ++ [(tilesLen, sentinelTile)])).stripBuf.drop n0) =
        sentYs (st.stripBuf.drop n0) ++
          (specSentinelGo lines rest st.prevTile.y st.windingDelta).map (fun r => 4 * r) := by
  intro rest
  induction rest with
  | nil =>
    intro k st n0 hk hbnd hsort hpx hpy hstx hn0
    have hIdx : (tilesLen == tilesLen) = true := by simp
    have hLoc : st.prevTile.sameLoc sentinelTile = false := by
      rw [Bool.eq_false_iff]
      intro hcon
      have hcy := (sameLoc_iff.mp hcon).2
      simp only [sentinelTile] at hcy
      omega
    have hPrev : st.prevTile.prevLoc sentinelTile = false := by
      rw [Bool.eq_false_iff]
      intro hcon
      have hcy := (prevLoc_iff.mp hcon).2
      simp only [sentinelTile] at hcy
      omega
    have hRow : st.prevTile.sameRow sentinelTile = false := by
      rw [Bool.eq_false_iff]
      intro hcon
      have hcy := sameRow_iff.mp hcon
      simp only [sentinelTile] at hcy
      omega
    show sentYs ((renderStep fillRule threshold gamma cov tilesLen lines st
        (tilesLen, sentinelTile)).stripBuf.drop n0) = _
    rw [renderStep_finalSen _ _ _ _ _ _ _ _ _ hLoc hPrev hRow hIdx]
    show sentYs ((st.stripBuf ++ [st.strip] ++
        [RasterStrip.mk 65535 (st.prevTile.y * 4 % 2 ^ 16) (st.alphaBuf ++ alphaChunk cov threshold gamma st.flushes).length (shouldFill fillRule st.windingDelta)]).drop n0) = _
    rw [List.drop_append_of_le_length (by simp only [List.length_append]; omega),
      List.drop_append_of_le_length hn0, sentYs_append, sentYs_append,
      sentYs_nonsen _ hstx, sentYs_sen]
    have hy4 : st.prevTile.y * 4 % 2 ^ 16 = 4 * st.prevTile.y := by omega
    rw [hy4]
    simp [specSentinelGo]
  | cons t ts ih =>
    intro k st n0 hk hbnd hsort hpx hpy hstx hn0
    obtain ⟨hle, hsort2⟩ := List.chain'_cons.mp hsort
    obtain ⟨hbx, hby⟩ := hbnd t (List.mem_cons_self _ _)
    have hbnd2 : ∀ u ∈ ts, u.x < 16384 ∧ u.y < 16384 := fun u hu =>
      hbnd u (List.mem_cons_of_mem _ hu)
    have hIdx : (k == tilesLen) = false := by
      simp only [beq_eq_false_iff_ne]
      simp only [List.length_cons] at hk
      omega
    have hk2 : k + 1 + ts.length ≤ tilesLen := by
      simp only [List.length_cons] at hk
      omega
    have hfold : List.foldl (renderStep fillRule threshold gamma cov tilesLen lines) st
        (List.enumFrom k (t :: ts) ++ [(tilesLen, sentinelTile)]) =
      List.foldl (renderStep fillRule threshold gamma cov tilesLen lines)
        (renderStep fillRule threshold gamma cov tilesLen lines st (k, t))
        (List.enumFrom (k + 1) ts ++ [(tilesLen, sentinelTile)]) := rfl
    rw [hfold]
    by_cases hty : t.y = st.prevTile.y
    · -- same row: the state keeps its current row; no sentinel is emitted
      have hspec : specSentinelGo lines (t :: ts) st.prevTile.y st.windingDelta =
          specSentinelGo lines ts st.prevTile.y (st.windingDelta + lineDelta lines t) := by
        rw [specSentinelGo, if_pos hty]
      rw [hspec]
      have hRow : st.prevTile.sameRow t = true := sameRow_iff.mpr hty.symm
      cases hLoc : st.prevTile.sameLoc t with
      | true =>
        rw [renderStep_sameLoc _ _ _ _ _ _ _ _ _ hLoc]
        have := ih (k + 1)
          { st with prevTile := t, windingDelta := st.windingDelta + lineDelta lines t }
          n0 hk2 hbnd2 (by show List.Chain' _ (t :: ts); exact hsort2) hbx hby hstx hn0
        rw [this]
        dsimp only
        rw [hty]
      | false =>
      cases hPrev : st.prevTile.prevLoc t with
      | true =>
        rw [renderStep_prevLoc _ _ _ _ _ _ _ _ _ hLoc hPrev]
        have := ih (k + 1)
          { st with alphaBuf := st.alphaBuf ++ alphaChunk cov threshold gamma st.flushes,
                    flushes := st.flushes + 1, prevTile := t,
                    windingDelta := st.windingDelta + lineDelta lines t }
          n0 hk2 hbnd2 (by show List.Chain' _ (t :: ts); exact hsort2) hbx hby hstx hn0
        rw [this]
        dsimp only
        rw [hty]
      | false =>
        rw [renderStep_breakRow _ _ _ _ _ _ _ _ _ hLoc hPrev hRow hIdx]
        have hstx2 : (t.x * 4 % 2 ^ 16) % 4 = 0 := by omega
        have := ih (k + 1)
          { st with alphaBuf := st.alphaBuf ++ alphaChunk cov threshold gamma st.flushes,
                    flushes := st.flushes + 1,
                    stripBuf := st.stripBuf ++ [st.strip],
                    ghost := st.ghost ++ [some st.prevTile.x],
                    strip := { x := t.x * 4 % 2 ^ 16, y := t.y * 4 % 2 ^ 16,
                               alphaIdx := (st.alphaBuf ++ alphaChunk cov threshold gamma st.flushes).length,
                               fillGap := shouldFill fillRule st.windingDelta },
                    prevTile := t,
                    windingDelta := st.windingDelta + lineDelta lines t }
          n0 hk2 hbnd2 (by show List.Chain' _ (t :: ts); exact hsort2) hbx hby hstx2
          (by show n0 ≤ (st.stripBuf ++ [st.strip]).length
              simp only [List.length_append]
              omega)
        rw [this]
        dsimp only
        rw [hty, List.drop_append_of_le_length hn0, sentYs_append, sentYs_nonsen _ hstx]
        simp
    · -- row change
      have hyne : st.prevTile.y < t.y := by
        rcases Nat.lt_or_ge st.prevTile.y t.y with h | h
        · exact h
        · exfalso
          exact hty (by omega)
      have hLoc : st.prevTile.sameLoc t = false := by
        rw [Bool.eq_false_iff]
        intro hcon
        exact hty ((sameLoc_iff.mp hcon).2).symm
      have hPrev : st.prevTile.prevLoc t = false := by
        rw [Bool.eq_false_iff]
        intro hcon
        exact hty ((prevLoc_iff.mp hcon).2).symm
      have hRow : st.prevTile.sameRow t = false := by
        rw [Bool.eq_false_iff]
        intro hcon
        exact hty (sameRow_iff.mp hcon).symm
      have hspec : specSentinelGo lines (t :: ts) st.prevTile.y st.windingDelta =
          (if st.windingDelta ≠ 0 then [st.prevTile.y] else []) ++
            specSentinelGo lines ts t.y (lineDelta lines t) := by
        rw [specSentinelGo, if_neg hty]
      rw [hspec]
      have hstx2 : (t.x * 4 % 2 ^ 16) % 4 = 0 := by omega
      rcases eq_or_ne st.windingDelta 0 with hWd | hWd
      · rw [renderStep_newRowNoDelta _ _ _ _ _ _ _ _ _ hLoc hPrev hRow hIdx hWd]
        have := ih (k + 1)
          { st with alphaBuf := st.alphaBuf ++ alphaChunk cov threshold gamma st.flushes,
                    flushes := st.flushes + 1,
                    stripBuf := st.stripBuf ++ [st.strip],
                    ghost := st.ghost ++ [some st.prevTile.x],
                    strip := { x := t.x * 4 % 2 ^ 16, y := t.y * 4 % 2 ^ 16,
                               alphaIdx := (st.alphaBuf ++ alphaChunk cov threshold gamma st.flushes).length,
                               fillGap := shouldFill fillRule 0 },
                    prevTile := t,
                    windingDelta := 0 + lineDelta lines t }
          n0 hk2 hbnd2 (by show List.Chain' _ (t :: ts); exact hsort2) hbx hby hstx2
          (by show n0 ≤ (st.stripBuf ++ [st.strip]).length
              simp only [List.length_append]
              omega)
        rw [this]
        dsimp only
        rw [zero_add, List.drop_append_of_le_length hn0, sentYs_append, sentYs_nonsen _ hstx]
        simp [hWd]
      · rw [renderStep_newRowDelta _ _ _ _ _ _ _ _ _ hLoc hPrev hRow hIdx hWd]
        have := ih (k + 1)
          { st with alphaBuf := st.alphaBuf ++ alphaChunk cov threshold gamma st.flushes,
                    flushes := st.flushes + 1,
                    stripBuf := st.stripBuf ++ [st.strip] ++
                      [RasterStrip.mk 65535 (st.prevTile.y * 4 % 2 ^ 16) (st.alphaBuf ++ alphaChunk cov threshold gamma st.flushes).length (shouldFill fillRule st.windingDelta)],
                    ghost := st.ghost ++ [some st.prevTile.x] ++ [none],
                    strip := { x := t.x * 4 % 2 ^ 16, y := t.y * 4 % 2 ^ 16,
                               alphaIdx := (st.alphaBuf ++ alphaChunk cov threshold gamma st.flushes).length,
                               fillGap := shouldFill fillRule 0 },
                    prevTile := t,
                    windingDelta := 0 + lineDelta lines t }
          n0 hk2 hbnd2 (by show List.Chain' _ (t :: ts); exact hsort2) hbx hby hstx2
          (by show n0 ≤ (st.stripBuf ++ [st.strip] ++
                [RasterStrip.mk 65535 (st.prevTile.y * 4 % 2 ^ 16) (st.alphaBuf ++ alphaChunk cov threshold gamma st.flushes).length (shouldFill fillRule st.windingDelta)]).length
              simp only [List.length_append]
              omega)
        rw [this]
        dsimp only
        rw [zero_add, List.drop_append_of_le_length (by simp only [List.length_append]; omega),
          List.drop_append_of_le_length hn0, sentYs_append, sentYs_append,
          sentYs_nonsen _ hstx, sentYs_sen]
        have hy4 : st.prevTile.y * 4 % 2 ^ 16 = 4 * st.prevTile.y := by omega
        rw [hy4]
        simp [hWd]

/-! # Claim theorems -/

/-- C1 (code bug witness): evaluating the schedule on a 1x1 scene with a
single empty clip layer and `total_slots = 2`.  `do_scene` succeeds, and
afterwards `free[0]` has its 2 slots back but `free[1]` retains only 1 of
the 2 (the `for i in 0..1` loop in `flush` returns queued frees only to
`free[0]`), and `clear[1]` still holds the allocated slot index (clear
lists are only emptied when the corresponding draw list is non-empty).
The slot-conservation claim `|free[0]| == |free[1]| == N` with empty
clear lists therefore fails on this input. -/
theorem c1_slot_conservation_fails_at_scene :
    ((Schedule.new 2).doScene c1Scene).map
      (fun p => (p.1.free0.length, p.1.free1.length, p.1.clear0, p.1.clear1,
                 p.1.roundsQueue.length)) =
      some (2, 1, [], [1], 0) := by
  rfl

/-- C3 (counterexample): at luminance 36 the source's
`find_anchor_index` yields 1 (the anchor `36` itself), while the claimed
formula `floor((7*L)/255)` yields 0. -/
theorem c3_find_anchor_index_ne_floor_7L :
    findAnchorIndex (36 : Fin 256) ≠ 7 * 36 / 255 := by
  decide

/-- C3 (amended): for every luminance `L`, `find_anchor_index(L)` is the
greatest index `i ≤ 7` whose anchor luminance is `≤ L` - equivalently
`floor((7*L + 6)/255)`, not the claimed `floor((7*L)/255)`; the two
formulas differ exactly at the six interior anchor luminances
36, 72, 109, 145, 182 and 218. -/
theorem c3_find_anchor_index_greatest_anchor :
    ∀ L : Fin 256,
      findAnchorIndex L =
        ((List.range 8).filter (fun i => anchorLum i ≤ L.val)).length - 1 ∧
      findAnchorIndex L = (7 * L.val + 6) / 255 ∧
      (findAnchorIndex L ≠ 7 * L.val / 255 ↔
        (L.val = 36 ∨ L.val = 72 ∨ L.val = 109 ∨ L.val = 145 ∨
          L.val = 182 ∨ L.val = 218)) := by
  decide

/-- C4: the fixed-point computation `((7*L + 6) * 0x8081) >> 23` in
32-bit unsigned arithmetic (this is exactly `findAnchorIndex`) equals
`floor((7*L + 6)/255)` for every luminance `L ∈ [0, 255]`. -/
theorem c4_fixed_point_anchor_index_exact :
    ∀ L : Fin 256, findAnchorIndex L = (7 * L.val + 6) / 255 := by
  decide

/-- C9: `update_if_needed` leaves the corrector unchanged when the
luminance matches its current one, and otherwise produces exactly the
state of a freshly constructed corrector for the new luminance -
for every choice of the build-generated anchor tables. -/
theorem c9_update_if_needed_equiv :
    ∀ (luts : Nat → Fin 256 → Fin 256) (c : GammaCorrector) (L : Fin 256),
      c.updateIfNeeded luts L =
        if c.currentLuminance = L then c else GammaCorrector.new luts L := by
  intro luts c L
  unfold GammaCorrector.updateIfNeeded GammaCorrector.new GammaCorrector.updateLut
  dsimp only
  split
  · rfl
  · split <;> rfl

/-- C10: rendering an empty tile sequence leaves the strip buffer and
the alpha buffer exactly unchanged, for every fill rule, aliasing
threshold, gamma corrector, line array, coverage parameter and initial
buffer contents. -/
theorem c10_empty_tiles_frame :
    ∀ (cov : Nat → Fin 16 → Fin 256) (stripBuf : List RasterStrip)
      (alphaBuf : List (Fin 256)) (fillRule : FillRule)
      (threshold : Option (Fin 256)) (gamma : Option GammaCorrector)
      (lines : List Line),
      render cov [] stripBuf alphaBuf fillRule threshold gamma lines =
        (stripBuf, alphaBuf, []) := by
  intro cov stripBuf alphaBuf fillRule threshold gamma lines
  rfl

theorem drawsAt_setDrawsAt_ne (r : Round) (i j : Nat) (l : List GpuStrip)
    (hi : i < 3) (hj : j < 3) (h : j ≠ i) :
    (r.setDrawsAt i l).drawsAt j = r.drawsAt j := by
  unfold Round.setDrawsAt Round.drawsAt
  split_ifs <;> first | rfl | omega

/-- The target index computed by `draw_mut` is always one of the three
draw lists. -/
theorem clipTargetIndex_lt_three (clipDepth : Nat) : clipTargetIndex clipDepth < 3 := by
  unfold clipTargetIndex
  split <;> omega

/-- C7: every strip the scheduler appends goes through `draw_mut`, whose
draw-list index is 2 (the final target) at destination clip depth 1 and
`1 - (d mod 2)` at depth `d ≥ 2` (even depths to texture 1, odd depths to
texture 0); the selected round's draw list at that index is extended by
exactly the pushed strip and the other two draw lists are untouched. -/
theorem c7_depth_parity_targeting :
    ∀ (s : Schedule) (elRound clipDepth : Nat) (strip : GpuStrip) (s' : Schedule),
      s.drawMutPush elRound clipDepth strip = some s' →
      (clipDepth = 1 → clipTargetIndex clipDepth = 2) ∧
      (2 ≤ clipDepth → clipTargetIndex clipDepth = 1 - clipDepth % 2 ∧
        (clipDepth % 2 = 0 → clipTargetIndex clipDepth = 1) ∧
        (clipDepth % 2 = 1 → clipTargetIndex clipDepth = 0)) ∧
      ∃ r : Round,
        (if s.roundsQueue.length = elRound - s.round
          then s.roundsQueue ++ [Round.default]
          else s.roundsQueue).get? (elRound - s.round) = some r ∧
        s'.roundsQueue.get? (elRound - s.round) =
          some (r.setDrawsAt (clipTargetIndex clipDepth)
            (r.drawsAt (clipTargetIndex clipDepth) ++ [strip])) ∧
        ∀ j, j < 3 → j ≠ clipTargetIndex clipDepth →
          (r.setDrawsAt (clipTargetIndex clipDepth)
            (r.drawsAt (clipTargetIndex clipDepth) ++ [strip])).drawsAt j =
            r.drawsAt j := by
  intro s elRound clipDepth strip s' h
  refine ⟨?_, ?_, ?_⟩
  · intro h1
    rw [clipTargetIndex, if_pos h1]
  · intro h2
    have hne : clipDepth ≠ 1 := by omega
    rw [clipTargetIndex, if_neg hne]
    omega
  · unfold Schedule.drawMutPush at h
    dsimp only at h
    split at h
    · exact absurd h (by simp)
    · rename_i r heq
      rw [Option.some_inj] at h
      refine ⟨r, heq, ?_, ?_⟩
      · rw [← h]
        dsimp only
        rw [List.get?_set_eq, heq]
        rfl
      · intro j hj hne
        exact drawsAt_setDrawsAt_ne r _ j _ (clipTargetIndex_lt_three clipDepth) hj hne

/-- C7 witness: pushing one strip at destination clip depth 2 through
`draw_mut` on a fresh schedule targets draw list 1. -/
theorem c7_depth_parity_targeting_witness :
    clipTargetIndex 2 = 1 - 2 % 2 ∧ clipTargetIndex 2 = 1 := by
  have h := c7_depth_parity_targeting (Schedule.new 1) 0 2 ⟨0, 0, 0, 0, 0, 0⟩
    { round := 0, totalSlots := 1, free0 := [0], free1 := [0], clear0 := [], clear1 := [],
      roundsQueue := [{ d0 := [], d1 := [⟨0, 0, 0, 0, 0, 0⟩], d2 := [], f0 := [], f1 := [] }] }
    rfl
  exact ⟨(h.2.1 (by norm_num)).1, (h.2.1 (by norm_num)).2.1 rfl⟩

/-- C6: the strips appended by the rasterizer's `render` (row sentinels
included) have non-decreasing `alpha_idx`, for every coverage parameter,
tile sequence, fill rule, threshold, gamma corrector, line array and
initial buffer contents. -/
theorem c6_monotonic_alpha_idx :
    ∀ (cov : Nat → Fin 16 → Fin 256) (tiles : List Tile)
      (stripBuf : List RasterStrip) (alphaBuf : List (Fin 256))
      (fillRule : FillRule) (threshold : Option (Fin 256))
      (gamma : Option GammaCorrector) (lines : List Line),
      List.Chain' stripLE
        ((render cov tiles stripBuf alphaBuf fillRule threshold gamma lines).1.drop
          stripBuf.length) := by
  intro cov tiles sb ab fillRule threshold gamma lines
  unfold render renderImpl
  cases tiles with
  | nil => simp
  | cons t0 rest =>
    dsimp only
    rw [renderFold_split]
    apply monoInv_final_chain
    apply foldl_preserve (MonoInv sb.length)
    · intro c x hx hc
      exact monoInv_step _ _ _ _ _ _ _ _ hc (Nat.ne_of_lt (mem_enum_bounds hx).1)
    · refine ⟨le_refl _, ?_, le_refl _, ?_⟩
      · rw [List.drop_length]
        exact List.chain'_nil
      · rw [List.drop_length]
        intro x hx
        simp at hx

/-- C2 (amended): the sentinel strips emitted by `render` are exactly
one per row at each row transition where the departing row's accumulated
top-edge winding delta is non-zero, plus - unconditionally - one for the
final row; a non-final row whose winding delta is zero gets no sentinel.
Stated as an equality between the sentinel y-sequence of the output and
the specification-level row recursion `specSentinelRows`, for row-sorted
tiles whose coordinates do not wrap `u16` arithmetic. -/
theorem c2_row_sentinel_iff_delta_or_final :
    ∀ (cov : Nat → Fin 16 → Fin 256) (tiles : List Tile)
      (stripBuf : List RasterStrip) (alphaBuf : List (Fin 256))
      (fillRule : FillRule) (threshold : Option (Fin 256))
      (gamma : Option GammaCorrector) (lines : List Line),
      (∀ t ∈ tiles, t.x < 16384) → (∀ t ∈ tiles, t.y < 16384) →
      List.Chain' (fun a b : Tile => a.y ≤ b.y) tiles →
      sentYs ((render cov tiles stripBuf alphaBuf fillRule threshold gamma lines).1.drop
          stripBuf.length) =
        (specSentinelRows lines tiles).map (fun r => 4 * r) := by
  intro cov tiles sb ab fillRule threshold gamma lines hx hy hsort
  cases tiles with
  | nil => simp [render, renderImpl, specSentinelRows, sentYs]
  | cons t0 rest =>
    have ht0x : t0.x < 16384 := hx t0 (List.mem_cons_self _ _)
    have ht0y : t0.y < 16384 := hy t0 (List.mem_cons_self _ _)
    unfold render renderImpl
    dsimp only
    have henum : ((t0 :: rest) ++ [sentinelTile]).enum =
        (0, t0) :: (List.enumFrom 1 rest ++ [((t0 :: rest).length, sentinelTile)]) := by
      show (t0 :: (rest ++ [sentinelTile])).enum = _
      rw [List.enum_cons, List.enumFrom_append]
      simp [Nat.add_comm]
    rw [henum, List.foldl_cons]
    have hLoc : t0.sameLoc t0 = true := by simp [Tile.sameLoc]
    rw [renderStep_sameLoc _ _ _ _ _ _ _ _ _ hLoc]
    rw [c2_go fillRule threshold gamma cov (t0 :: rest).length lines rest 1 _ sb.length
      (by simp [List.length_cons, Nat.add_comm]) (fun u hu => ⟨hx u (List.mem_cons_of_mem _ hu),
        hy u (List.mem_cons_of_mem _ hu)⟩) hsort ht0x ht0y (by show t0.x * 4 % 2 ^ 16 % 4 = 0; omega)
      (le_refl _)]
    dsimp only
    rw [List.drop_length, zero_add]
    rfl

/-- C2 (amended) witness: on `c2Tiles` (rows 0 and 1, both with zero
winding delta) the emitted sentinel rows are exactly `[1]` - the final
row only - scaled by the tile height. -/
theorem c2_row_sentinel_iff_delta_or_final_witness :
    sentYs ((render covZero c2Tiles [] [] FillRule.nonZero none none [vLine]).1.drop
        ([] : List RasterStrip).length) =
      (specSentinelRows [vLine] c2Tiles).map (fun r => 4 * r) :=
  c2_row_sentinel_iff_delta_or_final covZero c2Tiles [] [] FillRule.nonZero none none [vLine]
    (by intro t ht; fin_cases ht <;> norm_num)
    (by intro t ht; fin_cases ht <;> norm_num)
    (by simp [c2Tiles])

/-- C5: the column-count invariant.  In the output of `render`, whenever
strips `k` and `k+1` are consecutive within the same tile row and strip
`k` is not a sentinel, their `alpha_idx`s differ by `columns(k) * H` with
`columns(k) = (tile_x_max + 1) * W - strip(k).x`, where `tile_x_max` (the
ghost value recorded for strip `k`) is the x-coordinate of the last tile
contributing to strip `k`, and `W = H = 4`.  Coordinates are assumed
small enough not to wrap `u16` arithmetic. -/
theorem c5_column_count_invariant :
    ∀ (cov : Nat → Fin 16 → Fin 256) (tiles : List Tile)
      (stripBuf : List RasterStrip) (alphaBuf : List (Fin 256))
      (fillRule : FillRule) (threshold : Option (Fin 256))
      (gamma : Option GammaCorrector) (lines : List Line),
      (∀ t ∈ tiles, t.x < 16384) → (∀ t ∈ tiles, t.y < 16384) →
      ∀ k a b,
        ((render cov tiles stripBuf alphaBuf fillRule threshold gamma lines).1.drop
          stripBuf.length).get? k = some a →
        ((render cov tiles stripBuf alphaBuf fillRule threshold gamma lines).1.drop
          stripBuf.length).get? (k + 1) = some b →
        a.x ≠ 65535 → a.y = b.y →
        ∃ mx, (render cov tiles stripBuf alphaBuf fillRule threshold gamma lines).2.2.get? k =
            some (some mx) ∧
          b.alphaIdx = a.alphaIdx + ((mx + 1) * 4 - a.x) * 4 := by
  intro cov tiles sb ab fillRule threshold gamma lines hx hy
  cases tiles with
  | nil =>
    intro k a b hka
    exfalso
    simp [render, renderImpl] at hka
  | cons t0 rest =>
    have ht0x : t0.x < 16384 := hx t0 (List.mem_cons_self _ _)
    have ht0y : t0.y < 16384 := hy t0 (List.mem_cons_self _ _)
    unfold render renderImpl
    dsimp only
    rw [renderFold_split]
    have hInit : ColInv sb.length
        { windingDelta := 0, prevTile := t0,
          strip := { x := t0.x * 4 % 2 ^ 16, y := t0.y * 4 % 2 ^ 16,
                     alphaIdx := ab.length, fillGap := false },
          stripBuf := sb, alphaBuf := ab, flushes := 0, ghost := [] } := by
      refine ⟨le_refl _, ?_, ?_, ?_, t0.x, ?_, le_refl _, ?_, ?_, ht0x, ht0y⟩
      · simp
      · intro k a b hka
        exfalso
        rw [List.drop_length] at hka
        simp at hka
      · intro a hal
        exfalso
        rw [List.drop_length] at hal
        simp at hal
      · show t0.x * 4 % 2 ^ 16 = 4 * t0.x
        omega
      · show ab.length = ab.length + (t0.x - t0.x) * 16
        omega
      · show t0.y * 4 % 2 ^ 16 = 4 * t0.y
        omega
    have hFold : ColInv sb.length
        ((t0 :: rest).enum.foldl
          (renderStep fillRule threshold gamma cov (t0 :: rest).length lines)
          { windingDelta := 0, prevTile := t0,
            strip := { x := t0.x * 4 % 2 ^ 16, y := t0.y * 4 % 2 ^ 16,
                       alphaIdx := ab.length, fillGap := false },
            stripBuf := sb, alphaBuf := ab, flushes := 0, ghost := [] }) := by
      refine foldl_preserve (ColInv sb.length) _ _ _ ?_ hInit
      intro c x hxmem hc
      obtain ⟨hlt, hmem⟩ := mem_enum_bounds hxmem
      have hne : (x.1 == (t0 :: rest).length) = false := by
        simp only [beq_eq_false_iff_ne]
        omega
      exact colInv_step _ _ _ _ _ _ _ x.1 x.2 hc hne (hx x.2 hmem) (hy x.2 hmem)
    exact colInv_final _ _ _ _ _ _ _ hFold

/-- Evaluation of `render` on `c5Tiles`: two same-row tiles with a
one-column gap produce two real strips and the final sentinel, with the
ghost recording each strip's last tile x. -/
theorem c5_render_eval :
    (render covZero c5Tiles [] [] FillRule.nonZero none none [vLine]).1 =
      [RasterStrip.mk 0 0 0 false, RasterStrip.mk 8 0 16 false,
       RasterStrip.mk 65535 0 32 false] ∧
    (render covZero c5Tiles [] [] FillRule.nonZero none none [vLine]).2.2 =
      [some 0, some 2, none] := by
  have hd1 : lineDelta [vLine] { x := 0, y := 0, lineIdx := 0, winding := 0 } = 0 := by
    simp [lineDelta]
  have hd2 : lineDelta [vLine] { x := 2, y := 0, lineIdx := 0, winding := 0 } = 0 := by
    simp [lineDelta]
  constructor <;>
    simp [render, renderImpl, c5Tiles, List.enum, List.enumFrom, List.foldl, renderStep,
      flushLoc, Tile.sameLoc, Tile.prevLoc, Tile.sameRow, sentinelTile, shouldFill,
      hd1, hd2, alphaChunk, covZero, applyThreshold, applyGammaOpt]

/-- C5 witness: the theorem applied to the two-strip row of `c5Tiles` at
`k = 0`: the ghost records max tile x 0, and the alpha indices differ by
`((0+1)*4 - 0) * 4 = 16`. -/
theorem c5_column_count_invariant_witness :
    ∃ mx, (render covZero c5Tiles [] [] FillRule.nonZero none none [vLine]).2.2.get? 0 =
        some (some mx) ∧
      (RasterStrip.mk 8 0 16 false).alphaIdx =
        (RasterStrip.mk 0 0 0 false).alphaIdx +
          ((mx + 1) * 4 - (RasterStrip.mk 0 0 0 false).x) * 4 := by
  refine c5_column_count_invariant covZero c5Tiles [] [] FillRule.nonZero none none [vLine]
    (by decide) (by decide) 0 _ _ ?_ ?_ (by decide) rfl
  · rw [c5_render_eval.1]
    rfl
  · rw [c5_render_eval.1]
    rfl

/-- Evaluation of `render` on `c2Tiles`: two tiles in different rows,
both with zero top-edge winding.  Row 0 contains a tile, yet no sentinel
strip with `y = 0` is emitted - only the final row's sentinel appears. -/
theorem c2_render_eval :
    (render covZero c2Tiles [] [] FillRule.nonZero none none [vLine]).1 =
      [RasterStrip.mk 0 0 0 false, RasterStrip.mk 0 4 16 false,
       RasterStrip.mk 65535 4 32 false] := by
  have hd1 : lineDelta [vLine] { x := 0, y := 0, lineIdx := 0, winding := 0 } = 0 := by
    simp [lineDelta]
  have hd2 : lineDelta [vLine] { x := 0, y := 1, lineIdx := 0, winding := 0 } = 0 := by
    simp [lineDelta]
  simp [render, renderImpl, c2Tiles, List.enum, List.enumFrom, List.foldl, renderStep,
    flushLoc, Tile.sameLoc, Tile.prevLoc, Tile.sameRow, sentinelTile, shouldFill,
    hd1, hd2, alphaChunk, covZero, applyThreshold, applyGammaOpt]

/-- C2 (counterexample): on `c2Tiles`, tile row 0 contains a tile, but
the strip sequence produced by `render` contains no sentinel strip
(`x = 0xFFFF`) for that row - the row's winding delta is zero and it is
not the final row, so the source emits nothing for it. -/
theorem c2_row_sentinel_missing :
    (∃ t ∈ c2Tiles, t.y = 0) ∧
    (render covZero c2Tiles [] [] FillRule.nonZero none none [vLine]).1.countP
      (fun st => st.x == 65535 && st.y == 0) = 0 := by
  constructor
  · exact ⟨{ x := 0, y := 0, lineIdx := 0, winding := 0 }, by simp [c2Tiles], rfl⟩
  · rw [c2_render_eval]
    rfl

/-- C8: for every `alpha_idx < 2^31`, `Strip::new` succeeds and packs
`fill_gap` into bit 31 and `alpha_idx` into the low 31 bits, with both
accessors reading back exactly; for every `u32` `alpha_idx ≥ 2^31`,
`Strip::new` and `Strip::set_alpha_idx` fail the assertion. -/
theorem c8_strip_packing :
    ∀ (x y alphaIdx : Nat) (fillGap : Bool), alphaIdx < 2 ^ 32 →
      (alphaIdx < 2 ^ 31 →
        ∃ s, Strip.new x y alphaIdx fillGap = some s ∧ s.x = x ∧ s.y = y ∧
          s.alphaIdx = alphaIdx ∧ s.fillGap = fillGap ∧
          s.packedAlphaIdxFillGap = (if fillGap then 2 ^ 31 else 0) + alphaIdx) ∧
      (2 ^ 31 ≤ alphaIdx →
        Strip.new x y alphaIdx fillGap = none ∧
          ∀ s : Strip, s.setAlphaIdx alphaIdx = none) := by
  intro x y alphaIdx fillGap h32
  constructor
  · intro h31
    have hOk := land_fillGapMask_eq_zero h31
    refine ⟨Strip.mk x y (alphaIdx ||| (if fillGap then FILL_GAP_MASK else 0)),
      ?_, rfl, rfl, ?_, ?_, ?_⟩
    · rw [Strip.new, if_pos hOk]
    · show (alphaIdx ||| (if fillGap then FILL_GAP_MASK else 0)) &&& (2 ^ 31 - 1) = alphaIdx
      cases fillGap
      · simp only [if_neg Bool.false_ne_true, Bool.false_eq_true, if_false, Nat.or_zero,
          Nat.and_pow_two_sub_one_eq_mod]
        exact Nat.mod_eq_of_lt h31
      · simp only [if_true]
        rw [lor_fillGapMask_eq_add h31, Nat.and_pow_two_sub_one_eq_mod]
        omega
    · show ((alphaIdx ||| (if fillGap then FILL_GAP_MASK else 0)) &&& FILL_GAP_MASK != 0) = fillGap
      cases fillGap
      · simp only [Bool.false_eq_true, if_false, Nat.or_zero]
        rw [hOk]
        rfl
      · simp only [if_true]
        rw [lor_fillGapMask_eq_add h31, FILL_GAP_MASK, Nat.and_two_pow,
          high_bit_add_testBit h31]
        rfl
    · show alphaIdx ||| (if fillGap then FILL_GAP_MASK else 0) =
        (if fillGap then 2 ^ 31 else 0) + alphaIdx
      cases fillGap
      · simp [Nat.or_zero]
      · simp only [if_true]
        exact lor_fillGapMask_eq_add h31
  · intro hge
    have hBad := land_fillGapMask_ne_zero hge h32
    constructor
    · rw [Strip.new, if_neg hBad]
    · intro s
      rw [Strip.setAlphaIdx, if_neg hBad]

/-- C8 witness: instantiating the packing theorem at `alpha_idx = 5`,
`fill_gap = true` and at the overflowing `alpha_idx = 2^31`. -/
theorem c8_strip_packing_witness :
    (∃ s, Strip.new 3 7 5 true = some s ∧ s.x = 3 ∧ s.y = 7 ∧
      s.alphaIdx = 5 ∧ s.fillGap = true ∧
      s.packedAlphaIdxFillGap = (if true then 2 ^ 31 else 0) + 5) ∧
    (Strip.new 3 7 (2 ^ 31) false = none ∧
      ∀ s : Strip, s.setAlphaIdx (2 ^ 31) = none) :=
  ⟨(c8_strip_packing 3 7 5 true (by norm_num)).1 (by norm_num),
   (c8_strip_packing 3 7 (2 ^ 31) false (by norm_num)).2 (by norm_num)⟩

end Vello
